import Mathlib

/-!
# TreeBinding: tree / record binding

A shallow embedding of `src/Details/TreeBinding.cpp` and of the declarations it
relies on in `src/TreeBinding/Details/TreeBindingDetails.h`.

Conventions of the embedding:

* a `std::string` is the list of its characters (`List Char`);
* the machine integer type `Integer` is `Int`, its 64-bit range being stated
  where it matters (`LLONG_MIN`, `LLONG_MAX`);
* a C++ function that may throw returns `Except Exception _`;
* a record (`BasicTree`) is the list of its field descriptors in declaration
  order, `nodesNum` being the length of that list;
* the pure virtual members of `BasicNodeData` (`compare`, `reset`, `copy`,
  `parsePtree`), whose overriders live in a header that is not part of the
  sources at hand, are parameters of the operations that call them, and so is
  `typeid`, the concrete type of a field;
* an access that is undefined in C++ (a field index outside the record,
  `back()` of a tree without children) is `none`.
-/

namespace TreeBinding

/-! ## Exceptions -/

/-- The exception classes thrown by the library, with their `what()` text: the two standard
classes and `WrongChildsNumException`, which derives from `std::runtime_error`. -/
inductive Exception where
  | out_of_range (what : String)
  | runtime_error (what : String)
  | WrongChildsNumException (what : String)
  deriving DecidableEq, Repr

/-! ## Translator -/

/-- The type used to store integer fields (`Integer`), a 64-bit signed integer. -/
abbrev Integer := Int

/-- Smallest value of a 64-bit signed integer. -/
def LLONG_MIN : Int := -9223372036854775808

/-- Largest value of a 64-bit signed integer. -/
def LLONG_MAX : Int := 9223372036854775807

/-- The C library predicate `std::isdigit` in the "C" locale: the ten decimal digits. -/
def isdigit (c : Char) : Bool := decide ('0' ≤ c ∧ c ≤ '9')

/-- The C library predicate `isspace` in the "C" locale: space, `\t`, `\n`, `\v`, `\f`, `\r`. -/
def isspace (c : Char) : Bool :=
  c = ' ' || c = '\t' || c = '\n' || c = Char.ofNat 11 || c = Char.ofNat 12 || c = '\r'

/-- Body of `Translator::isNumber`: the iterator `it` advances while it is not at the end and
points to a digit; what is left of the string after the loop is `s.dropWhile isdigit`, and
`it == s.end()` says that nothing is left. -/
def Translator.isNumber (s : List Char) : Bool :=
  let it := s.dropWhile isdigit
  !s.isEmpty && it.isEmpty

/-- Value of a digit character. -/
def digitValue (c : Char) : Nat := c.toNat - '0'.toNat

/-- The number that the leading run of decimal digits of `s` denotes in base 10, accumulated
from the most significant digit as `strtoll` does. -/
def digitsValue (s : List Char) : Nat :=
  (s.takeWhile isdigit).foldl (fun acc c => acc * 10 + digitValue c) 0

/-- Saturation of a mathematical integer to the range of `long long`. -/
def clampLongLong (v : Int) : Int :=
  if v < LLONG_MIN then LLONG_MIN else if LLONG_MAX < v then LLONG_MAX else v

/-- The C library function `atoll`, as `strtoll(s, NULL, 10)`: leading white space is skipped,
one optional sign is read, then the longest run of decimal digits; a value out of the range of
`long long` saturates. -/
def atoll (s : List Char) : Int :=
  match s.dropWhile isspace with
  | [] => 0
  | c :: t =>
    if c = '-' then clampLongLong (-(digitsValue t : Int))
    else if c = '+' then clampLongLong (digitsValue t)
    else clampLongLong (digitsValue (c :: t))

/-- Specialisation `Translator::fromString<Integer>`: the value stored through the pointer, or
the exception thrown. -/
def Translator.fromString (str : List Char) : Except Exception Integer :=
  if Translator.isNumber str then
    .ok (atoll str)
  else
    .error (.out_of_range "")

/-- The character of a decimal digit `d < 10`. -/
def digitChar (d : Nat) : Char :=
  match d with
  | 0 => '0' | 1 => '1' | 2 => '2' | 3 => '3' | 4 => '4'
  | 5 => '5' | 6 => '6' | 7 => '7' | 8 => '8' | _ => '9'

/-- Decimal rendering of a natural number, most significant digit first, without leading
zeros. -/
def decimal (n : Nat) : List Char :=
  if _h : n < 10 then [digitChar n] else decimal (n / 10) ++ [digitChar (n % 10)]
decreasing_by omega

/-- The text written by `std::sprintf(buf, "%lld", v)`: a minus sign for a negative value,
then the decimal digits of the magnitude. -/
def sprintf_lld (v : Int) : List Char :=
  if v < 0 then '-' :: decimal v.natAbs else decimal v.toNat

/-- Specialisation `Translator::toString<Integer>`. -/
def Translator.toString (value : Integer) : List Char :=
  sprintf_lld value

/-- The size of the array `char buf[20]` into which `Translator::toString<Integer>` formats
its text. -/
def Translator.bufSize : Nat := 20

/-- The bytes that `std::sprintf(buf, "%lld", *value)` writes into `buf`: the characters of
the text and the terminating NUL. -/
def Translator.sprintfBytes (value : Integer) : List Char :=
  sprintf_lld value ++ [Char.ofNat 0]

/-- The number of bytes that `std::sprintf(buf, "%lld", *value)` writes into `buf`. -/
def Translator.writtenBytes (value : Integer) : Nat :=
  (Translator.sprintfBytes value).length

/-- Reference definition for the words "the number that `s` denotes in base 10": every digit
weighs the power of ten of its position, the last digit weighing one. -/
def base10Value : List Char → Nat
  | [] => 0
  | c :: t => digitValue c * 10 ^ t.length + base10Value t

/-- The library function `std::to_string` on an `int`: the text of `"%d"`, a minus sign for a
negative value, then the decimal digits of the magnitude. -/
def to_string (v : Int) : List Char :=
  if v < 0 then '-' :: decimal v.natAbs else decimal v.toNat

/-! ## Cardinality -/

/-- The cardinality type `NodesNum`: it wraps one `int32_t` value, a count or a sentinel. -/
structure NodesNum where
  value : Int
  deriving DecidableEq, Repr

/-- Sentinel `NodesNum::NOT_SPECIFIED`: the number of nodes is not specified. -/
def NodesNum.NOT_SPECIFIED : Int := -1

/-- Sentinel `NodesNum::MORE_THAN_0`: the number of nodes should be more than 0. -/
def NodesNum.MORE_THAN_0 : Int := -2

/-- The predicate `NodesNum::isCertain`. -/
def NodesNum.isCertain (self : NodesNum) : Bool :=
  decide (self.value ≥ 0)

/-- The rendering `NodesNum::toString`: a `switch` on the value. -/
def NodesNum.toString (self : NodesNum) : List Char :=
  if self.value = NodesNum.NOT_SPECIFIED then
    "not specified".toList
  else if self.value = NodesNum.MORE_THAN_0 then
    "more than 0".toList
  else
    to_string self.value

/-- The text that the constructor of `WrongChildsNumException` hands to `std::runtime_error`. -/
def WrongChildsNumException.message (objectName : List Char) (requiredNum : NodesNum)
    (actuallyNum : Int) : List Char :=
  "Invalid number of childs in node ".toList ++ objectName ++ ". Required: ".toList ++
    requiredNum.toString ++ ", present: ".toList ++ to_string actuallyNum

/-- The constructor `WrongChildsNumException::WrongChildsNumException`. -/
def WrongChildsNumException (objectName : List Char) (requiredNum : NodesNum)
    (actuallyNum : Int) : Exception :=
  Exception.WrongChildsNumException
    (String.mk (WrongChildsNumException.message objectName requiredNum actuallyNum))

/-! ## Field descriptors -/

/-- The base class `Details::BasicNodeData`, used for iteration in a record. `value` stands for
what `getValue()` points to: the owned value of the concrete `NodeData<DataType>`, whatever its
type, so `V` is the type of all values a field can hold. -/
structure BasicNodeData (V : Type) where
  name : String
  requiredNum : NodesNum
  validity : Bool
  isLeaf : Bool
  value : V
  deriving DecidableEq, Repr

/-- The comparison `BasicNodeData::operator==`. The pure virtual `compare` is a parameter. -/
def BasicNodeData.operatorEq {V : Type} (compare : BasicNodeData V → BasicNodeData V → Bool)
    (self rhs : BasicNodeData V) : Bool :=
  if self.validity && rhs.validity then
    compare self rhs
  else true

/-- The constructor `BasicNodeData::BasicNodeData(_name, _requiredNum, isLeaf)`: the validity
starts false. `value` is the object that the derived `NodeData` allocates for the field. -/
def BasicNodeData.ctor {V : Type} (_name : String) (_requiredNum : Int) (isLeaf : Bool)
    (value : V) : BasicNodeData V :=
  { name := _name, requiredNum := ⟨_requiredNum⟩, validity := false, isLeaf := isLeaf,
    value := value }

/-- The assignment of a value, `Node::operator=(const DeducedDataType& rhs)` and its overload
on `const DeducedDataType&&`: `this->validity = true; return *this->value = rhs;`. The result
is the field after the assignment. -/
def Node.operatorAssign {V : Type} (self : BasicNodeData V) (rhs : V) : BasicNodeData V :=
  { self with validity := true, value := rhs }

/-! ## Records -/

/-- The class `BasicTree`: a name and, right after the header, the field descriptors of the
derived record in declaration order. -/
structure BasicTree (V : Type) where
  name : String
  nodes : List (BasicNodeData V)
  deriving DecidableEq, Repr

/-- The member `nodesNum`: number of fields in the record. -/
def BasicTree.nodesNum {V : Type} (self : BasicTree V) : Nat :=
  self.nodes.length

/-- The unchecked access `BasicTree::operator[]`, that is `*(begin() + index)`. An index that
is not below `nodesNum` addresses memory outside the fields, which is undefined behaviour in
C++: the model answers `none`. -/
def BasicTree.operatorIndex {V : Type} (self : BasicTree V) (index : Nat) :
    Option (BasicNodeData V) :=
  self.nodes[index]?

/-- The predicate `BasicTree::isValid`: `std::all_of` over `begin() .. end()`. -/
def BasicTree.isValid {V : Type} (self : BasicTree V) : Bool :=
  self.nodes.all (fun node => node.validity)

/-- The predicate `BasicTree::containValidNodes`: `std::any_of` over `begin() .. end()`. -/
def BasicTree.containValidNodes {V : Type} (self : BasicTree V) : Bool :=
  self.nodes.any (fun node => node.validity)

/-- One step of the loop of `BasicTree::operator==`:
`result = result && ((*this)[i] == rhs[i])`, where `&&` does not evaluate its right operand
once `result` is false. -/
def BasicTree.operatorEqStep {V : Type} (compare : BasicNodeData V → BasicNodeData V → Bool)
    (self rhs : BasicTree V) (result : Bool) (i : Nat) : Option Bool :=
  if result then do
    let a ← self.operatorIndex i
    let b ← rhs.operatorIndex i
    pure (BasicNodeData.operatorEq compare a b)
  else
    pure false

/-- The comparison `BasicTree::operator==`: `result` starts as `true` and the loop runs for
`i = 0, ..., nodesNum - 1` of the left record; `none` when a field access is undefined. -/
def BasicTree.operatorEq {V : Type} (compare : BasicNodeData V → BasicNodeData V → Bool)
    (self rhs : BasicTree V) : Option Bool :=
  (List.range self.nodesNum).foldlM (BasicTree.operatorEqStep compare self rhs) true

/-- The predicate `BasicTree::isLeafsValid`. -/
def BasicTree.isLeafsValid {V : Type} (self : BasicTree V) : Bool :=
  self.nodes.all (fun node => if node.isLeaf then node.validity else true)

/-- The predicate `BasicTree::isMandatoryLeafsValid`. -/
def BasicTree.isMandatoryLeafsValid {V : Type} (self : BasicTree V) : Bool :=
  self.nodes.all (fun node =>
    if node.isLeaf && node.requiredNum.value != NodesNum.NOT_SPECIFIED then node.validity
    else true)

/-- The procedure `BasicTree::reset`: every field is reset in turn by its own virtual `reset`,
which is a parameter. -/
def BasicTree.reset {V : Type} (reset : BasicNodeData V → BasicNodeData V)
    (self : BasicTree V) : BasicTree V :=
  { self with nodes := self.nodes.map reset }

/-- Modelled from the spec: the overrider `NodeData::reset` of the virtual `reset`, whose
definition is not in the sources at hand. It "clears `validity` to false and restores the owned
value to its default state"; `dflt` is that default state. -/
def NodeData.reset {V : Type} (dflt : V) (self : BasicNodeData V) : BasicNodeData V :=
  { self with validity := false, value := dflt }

/-- One turn of the loop of `BasicTree::copyLeafs`:
`if (rhs[i].isLeaf) (*this)[i] = rhs[i];`, where the assignment of fields,
`BasicNodeData::operator=`, is `this->copy(rhs)`. The pure virtual `copy` is a parameter: it
gives the destination field after the copy, or the exception it throws. The answer is `none`
when a field access is undefined. -/
def BasicTree.copyLeafsStep {V : Type}
    (copy : BasicNodeData V → BasicNodeData V → Except Exception (BasicNodeData V))
    (rhs self : BasicTree V) (i : Nat) : Option (Except Exception (BasicTree V)) :=
  match rhs.operatorIndex i with
  | none => none
  | some source =>
    if source.isLeaf then
      match self.operatorIndex i with
      | none => none
      | some target =>
        match copy target source with
        | Except.ok copied => some (Except.ok { self with nodes := self.nodes.set i copied })
        | Except.error e => some (Except.error e)
    else
      some (Except.ok self)

/-- The loop of `BasicTree::copyLeafs` over the indices still to visit: it stops at the
first turn that throws or is undefined. -/
def BasicTree.copyLeafsLoop {V : Type}
    (copy : BasicNodeData V → BasicNodeData V → Except Exception (BasicNodeData V))
    (rhs : BasicTree V) : List Nat → BasicTree V → Option (Except Exception (BasicTree V))
  | [], self => some (Except.ok self)
  | i :: rest, self =>
    match BasicTree.copyLeafsStep copy rhs self i with
    | some (Except.ok next) => BasicTree.copyLeafsLoop copy rhs rest next
    | other => other

/-- The procedure `BasicTree::copyLeafs`: the loop runs for `i = 0, ..., nodesNum - 1` of the
destination record. -/
def BasicTree.copyLeafs {V : Type}
    (copy : BasicNodeData V → BasicNodeData V → Except Exception (BasicNodeData V))
    (self rhs : BasicTree V) : Option (Except Exception (BasicTree V)) :=
  BasicTree.copyLeafsLoop copy rhs (List.range self.nodesNum) self

/-- Modelled from the spec: the overrider `NodeData::copy` of the virtual `copy`, whose
definition is not in the sources at hand. It is a "type-checked field-to-field value and
validity copy" that "fails with `TypeMismatchError` if `rhs` is not the same concrete Typed
Field type"; `typeid` gives the concrete type of a field. -/
def NodeData.copy {V T : Type} [DecidableEq T] (typeid : BasicNodeData V → T)
    (self rhs : BasicNodeData V) : Except Exception (BasicNodeData V) :=
  if typeid self = typeid rhs then
    Except.ok { self with value := rhs.value, validity := rhs.validity }
  else
    Except.error (Exception.runtime_error "TypeMismatchError")

/-- The lookup `BasicTree::getSameNode`: the range-based loop returns the first field whose
`typeid` is that of `rhs`, and the function throws when the loop ends. `typeid`, the concrete
type of a field, is a parameter. -/
def BasicTree.getSameNode {V T : Type} [DecidableEq T] (typeid : BasicNodeData V → T)
    (self : BasicTree V) (rhs : BasicNodeData V) : Except Exception (BasicNodeData V) :=
  match self.nodes.find? (fun node => typeid node == typeid rhs) with
  | some node => Except.ok node
  | none => Except.error (Exception.runtime_error "Cannot find same field")

/-! ## Trees and parsing -/

/-- The type `boost::property_tree::ptree`: the data of a node and its children in document
order, each with its key. -/
inductive Ptree where
  | mk (data : List Char) (children : List (String × Ptree))

/-- The children of a tree. -/
def Ptree.children : Ptree → List (String × Ptree)
  | Ptree.mk _ children => children

/-- The field loop of `BasicTree::parsePtree`, run on the fields still to parse. The pure
virtual `parsePtree` of a field is the parameter `parseNode`: it reads the tree and gives the
state in which it leaves the field, with the exception it throws, if any. An exception ends
the loop: the fields that follow are not visited. -/
def BasicTree.parseNodes {V : Type}
    (parseNode : BasicNodeData V → Ptree → BasicNodeData V × Option Exception)
    (tree : Ptree) : List (BasicNodeData V) → List (BasicNodeData V) × Option Exception
  | [] => ([], none)
  | node :: rest =>
    match parseNode node tree with
    | (parsed, some e) => (parsed :: rest, some e)
    | (parsed, none) =>
      let (others, thrown) := BasicTree.parseNodes parseNode tree rest
      (parsed :: others, thrown)

/-- What a call of `BasicTree::parsePtree` leaves behind: the tree of the caller, which is
passed by reference, the record, and the exception that left the call, if any. -/
structure ParseOutcome (V : Type) where
  tree : Ptree
  record : BasicTree V
  thrown : Option Exception

/-- The first statement of `BasicTree::parsePtree`, `if (isRoot) tree = tree.back().second;`:
the tree after it. `back()` is undefined for a tree without children (`none`). -/
def BasicTree.parsePtreeRoot (tree : Ptree) (isRoot : Bool) : Option Ptree :=
  if isRoot then (tree.children.getLast?).map (fun child => child.2) else some tree

/-- The procedure `BasicTree::parsePtree`. With `isRoot` the tree is first overwritten by the
subtree of its last child; then every field is parsed against the tree. -/
def BasicTree.parsePtree {V : Type}
    (parseNode : BasicNodeData V → Ptree → BasicNodeData V × Option Exception)
    (self : BasicTree V) (tree : Ptree) (isRoot : Bool) : Option (ParseOutcome V) :=
  (BasicTree.parsePtreeRoot tree isRoot).map (fun tree =>
    let (nodes, thrown) := BasicTree.parseNodes parseNode tree self.nodes
    { tree := tree, record := { self with nodes := nodes }, thrown := thrown })

/-- Modelled from the spec: the overrider `NodeData::parsePtree` of a field, whose definition
is not in the sources at hand. `found` are the tree nodes that match the name of the field
under the current tree position and `k` is their number. For an exact count `N` the parse
"fails with `CardinalityError{field, required=N, actual=k}` unless `k == N`"; for "one or
more" it "fails with the same error kind unless `k >= 1`"; for "optional", "`k == 0` leaves
`validity` false and is not an error". "On a satisfying match" the found nodes are bound by
`bind` (for a leaf the conversion of the text by the conversion registry, for a composite
field the parse of the nested records), whose failure propagates; "on success, set
`validity = true`". -/
def NodeData.parsePtree {V M : Type} (bind : List M → Except Exception V)
    (self : BasicNodeData V) (found : List M) : BasicNodeData V × Option Exception :=
  let k : Int := found.length
  if self.requiredNum.isCertain && k != self.requiredNum.value then
    (self, some (WrongChildsNumException self.name.toList self.requiredNum k))
  else if self.requiredNum.value == NodesNum.MORE_THAN_0 && k < 1 then
    (self, some (WrongChildsNumException self.name.toList self.requiredNum k))
  else if self.requiredNum.value == NodesNum.NOT_SPECIFIED && k == 0 then
    (self, none)
  else
    match bind found with
    | Except.ok value => ({ self with validity := true, value := value }, none)
    | Except.error e => (self, some e)

/-- Modelled from the spec: the binding of an integer leaf, "convert text to the typed value
via the Conversion Registry": the text of the first found node is converted by
`Translator::fromString<Integer>`. -/
def bindInteger (found : List (List Char)) : Except Exception Integer :=
  Translator.fromString (found.headD [])

/-! ## The stored type of a declared field -/

/-- A type given as `DataType` to the template `Node`, as far as the template looks at it:
its name and `std::is_base_of<BasicTree, DataType>::value`. -/
structure DataType where
  name : String
  is_base_of_BasicTree : Bool
  deriving DecidableEq, Repr

/-- The type argument of `NodeData`, the type of the value a field stores: `DataType` itself
or the collection `SubtreesSet<DataType>`. -/
inductive StoredType where
  | plain (dataType : DataType)
  | SubtreesSet (dataType : DataType)
  deriving DecidableEq, Repr

/-- The alias `Node::DeducedDataType`:
`std::conditional_t<is_base_of<BasicTree, DataType>::value && RequiredNum != 1,
SubtreesSet<DataType>, DataType>`. -/
def Node.DeducedDataType (dataType : DataType) (RequiredNum : Int) : StoredType :=
  if dataType.is_base_of_BasicTree && RequiredNum != 1 then
    StoredType.SubtreesSet dataType
  else
    StoredType.plain dataType

/-- The type argument of the base class `NodeData<...>` of `Node`, which the declaration of
`Node` spells out a second time with the same `std::conditional_t`. -/
def Node.BaseDataType (dataType : DataType) (RequiredNum : Int) : StoredType :=
  if dataType.is_base_of_BasicTree && RequiredNum != 1 then
    StoredType.SubtreesSet dataType
  else
    StoredType.plain dataType

/-! ## The field directory: addresses and iterators -/

/-- The sizes the address computations use: `sizeof(*this)` in `BasicTree::begin`, which is
`sizeof(BasicTree)`, then `sizeof(BasicNodeData)` and `sizeof(void*)`. -/
structure Sizes where
  sizeofBasicTree : Nat
  sizeofBasicNodeData : Nat
  sizeofVoidPtr : Nat
  deriving DecidableEq, Repr

/-- The constant `Details::NodeDataSize`, `sizeof(BasicNodeData) + sizeof(void*)`. -/
def Details.NodeDataSize (s : Sizes) : Nat :=
  s.sizeofBasicNodeData + s.sizeofVoidPtr

/-- Largest value of a 32-bit `int`. -/
def INT_MAX : Nat := 2147483647

/-- The conversion of a `size_t` to the 32-bit `int` that `BasicTree::operator[]` performs when
it passes its index to `NodeIterator::operator+(int)`: the value modulo `2^32`, read as
signed. -/
def toInt (index : Nat) : Int :=
  ((index : Int) + 2147483648) % 4294967296 - 2147483648

/-- The iterator `BasicTree::NodeIterator`: one pointer, a byte address. -/
structure NodeIterator where
  ptr : Int
  deriving DecidableEq, Repr

/-- The operator `NodeIterator::operator+(int)`: the pointer moves by
`Details::NodeDataSize * index` bytes. -/
def NodeIterator.operatorPlus (s : Sizes) (self : NodeIterator) (index : Int) : NodeIterator :=
  { ptr := self.ptr + (Details.NodeDataSize s : Int) * index }

/-- The operator `NodeIterator::operator++`, which is `*this + 1`. -/
def NodeIterator.operatorInc (s : Sizes) (self : NodeIterator) : NodeIterator :=
  NodeIterator.operatorPlus s self 1

/-- The operator `NodeIterator::operator==`: equality of the pointers. -/
def NodeIterator.operatorEq (self rhs : NodeIterator) : Bool :=
  self.ptr == rhs.ptr

/-- The operator `NodeIterator::operator!=`, which is `!(*this == rhs)`. -/
def NodeIterator.operatorNe (self rhs : NodeIterator) : Bool :=
  !(NodeIterator.operatorEq self rhs)

/-- The iterator `BasicTree::begin()` of the record at address `this`:
`(uint8_t*)this + sizeof(*this)`. -/
def BasicTree.begin (s : Sizes) (this : Int) : NodeIterator :=
  { ptr := this + (s.sizeofBasicTree : Int) }

/-- The iterator `BasicTree::end()` of the record at address `this` with `nodesNum` fields:
`(uint8_t*)beg.ptr + nodesNum * Details::NodeDataSize`. -/
def BasicTree.end (s : Sizes) (this : Int) (nodesNum : Nat) : NodeIterator :=
  { ptr := (BasicTree.begin s this).ptr + ((nodesNum * Details.NodeDataSize s : Nat) : Int) }

/-- The iterator that `BasicTree::operator[](index)` dereferences, `this->begin() + index`. -/
def BasicTree.operatorIndexIterator (s : Sizes) (this : Int) (index : Nat) : NodeIterator :=
  NodeIterator.operatorPlus s (BasicTree.begin s this) (toInt index)

/-- Reference definition for the words "all Field Descriptors contiguously immediately after
the Record's own fixed-size header, each occupying an identical byte stride (the Field
Descriptor header size plus one pointer)": the address of the field declared in position
`i`. -/
def fieldAddress (s : Sizes) (this : Int) (i : Nat) : Int :=
  this + (s.sizeofBasicTree : Int) +
    (i : Int) * ((s.sizeofBasicNodeData : Int) + (s.sizeofVoidPtr : Int))

/-! ## The record operations of the top-level `TreeBinding.cpp`

The file `src/TreeBinding.cpp` is another state of the implementation, in which the bodies of
two loops are commented out. -/

/-- The comparison `BasicTree::operator==` of `src/TreeBinding.cpp`: `result` starts as `true`,
the loop `for (int i = 0; i != nodesNum; i++)` has a body made of comments only, and `result`
is returned. -/
def TopLevel.BasicTree.operatorEq {V : Type} (self _rhs : BasicTree V) : Bool :=
  (List.range self.nodesNum).foldl (fun result _i => result) true

/-- The predicate `BasicTree::isLeafsValid` of `src/TreeBinding.cpp`: `isValid` starts as
`true`, the loop `for (int i = 0; i != nodesNum; i++)` has a body made of comments only, and
`isValid` is returned. -/
def TopLevel.BasicTree.isLeafsValid {V : Type} (self : BasicTree V) : Bool :=
  (List.range self.nodesNum).foldl (fun isValid _i => isValid) true

/-! ## Sample records

Concrete records over integer values, at which the theorems below are instantiated. -/

/-- A `compare` for fields that own an integer: equality of the owned values. -/
def sampleCompare (a b : BasicNodeData Int) : Bool :=
  a.value == b.value

/-- A record with a valid mandatory leaf and an unset optional leaf that holds `2`. -/
def sampleLeft : BasicTree Int :=
  { name := "Sample"
    nodes := [⟨"id", ⟨NodesNum.MORE_THAN_0⟩, true, true, 1⟩,
              ⟨"opt", ⟨NodesNum.NOT_SPECIFIED⟩, false, true, 2⟩] }

/-- The same record type, with the same valid leaf and the unset optional leaf holding `3`. -/
def sampleRight : BasicTree Int :=
  { name := "Sample"
    nodes := [⟨"id", ⟨NodesNum.MORE_THAN_0⟩, true, true, 1⟩,
              ⟨"opt", ⟨NodesNum.NOT_SPECIFIED⟩, false, true, 3⟩] }

/-- A record whose only fields are two unset optional leaves. -/
def sampleOptional : BasicTree Int :=
  { name := "Optional"
    nodes := [⟨"a", ⟨NodesNum.NOT_SPECIFIED⟩, false, true, 0⟩,
              ⟨"b", ⟨NodesNum.NOT_SPECIFIED⟩, false, true, 0⟩] }

/-- A record with a valid mandatory leaf, a valid optional leaf and a valid composite field. -/
def sampleMixed : BasicTree Int :=
  { name := "Mixed"
    nodes := [⟨"id", ⟨2⟩, true, true, 7⟩,
              ⟨"opt", ⟨NodesNum.NOT_SPECIFIED⟩, true, true, 8⟩,
              ⟨"childs", ⟨NodesNum.MORE_THAN_0⟩, true, false, 9⟩] }

/-- The record `sampleMixed` with its optional leaf and its composite field unset. -/
def sampleMixedUnset : BasicTree Int :=
  { name := "Mixed"
    nodes := [⟨"id", ⟨2⟩, true, true, 7⟩,
              ⟨"opt", ⟨NodesNum.NOT_SPECIFIED⟩, false, true, 8⟩,
              ⟨"childs", ⟨NodesNum.MORE_THAN_0⟩, false, false, 9⟩] }

/-- The record `sampleMixed` with only its composite field unset. -/
def sampleCompositeUnset : BasicTree Int :=
  { name := "Mixed"
    nodes := [⟨"id", ⟨2⟩, true, true, 7⟩,
              ⟨"opt", ⟨NodesNum.NOT_SPECIFIED⟩, true, true, 8⟩,
              ⟨"childs", ⟨NodesNum.MORE_THAN_0⟩, false, false, 9⟩] }

/-- A fully valid record of the type of `sampleMixed`, holding other values. -/
def sampleSource : BasicTree Int :=
  { name := "Mixed"
    nodes := [⟨"id", ⟨2⟩, true, true, 70⟩,
              ⟨"opt", ⟨NodesNum.NOT_SPECIFIED⟩, true, true, 80⟩,
              ⟨"childs", ⟨NodesNum.MORE_THAN_0⟩, true, false, 90⟩] }

/-- The data of a tree node. -/
def Ptree.data : Ptree → List Char
  | Ptree.mk data _ => data

/-- A field parse for integer leaves: the found nodes are the children of the tree whose key is
the name of the field, and their data is bound by `bindInteger`. -/
def sampleParseNode (node : BasicNodeData Int) (tree : Ptree) :
    BasicNodeData Int × Option Exception :=
  NodeData.parsePtree bindInteger node
    ((tree.children.filter (fun child => child.1 == node.name)).map (fun child => child.2.data))

/-- A record of three integer leaves, each required exactly once, as constructed. -/
def sampleFresh : BasicTree Int :=
  { name := "Fresh"
    nodes := [BasicNodeData.ctor "a" 1 true 0, BasicNodeData.ctor "b" 1 true 0,
              BasicNodeData.ctor "c" 1 true 0] }

/-- A document whose root element has the children `a = 5`, `b = x` and `c = 9`. -/
def sampleDocument : Ptree :=
  Ptree.mk [] [("Fresh", Ptree.mk []
    [("a", Ptree.mk ['5'] []), ("b", Ptree.mk ['x'] []), ("c", Ptree.mk ['9'] [])])]

/-- The root element of `sampleDocument`. -/
def sampleElement : Ptree :=
  Ptree.mk [] [("a", Ptree.mk ['5'] []), ("b", Ptree.mk ['x'] []), ("c", Ptree.mk ['9'] [])]

end TreeBinding

/-!
# The single header generator

A shallow embedding of `src/misc/single_header_generator/generator.cpp`. A `File` is the list
of its lines, a line being a `std::string`. Every regular expression of the source is
deterministic: each repetition ranges over a class of characters that the next element of the
pattern cannot start with, so `std::regex_match` succeeds exactly when the line splits into
the longest runs, which is what the matchers below compute.
-/

namespace SingleHeaderGenerator

/-! ## Regular expressions of the source -/

/-- The atom `.` of an ECMAScript regular expression: any character but a line terminator. -/
def isDot (c : Char) : Bool :=
  c != '\n' && c != '\r'

/-- The class `[ \t]`. -/
def isBlank (c : Char) : Bool :=
  c == ' ' || c == '\t'

/-- The class `[A-Z0-9_]`. -/
def isGuardChar (c : Char) : Bool :=
  decide ('A' ≤ c ∧ c ≤ 'Z') || decide ('0' ≤ c ∧ c ≤ '9') || c == '_'

/-- A literal at the front of a text: what follows it, when the text starts with it. -/
def stripLiteral : List Char → List Char → Option (List Char)
  | [], s => some s
  | _ :: _, [] => none
  | a :: literal, b :: s => if a = b then stripLiteral literal s else none

/-- A literal somewhere in a text. -/
def containsLiteral (literal : List Char) : List Char → Bool
  | [] => (stripLiteral literal []).isSome
  | c :: s => (stripLiteral literal (c :: s)).isSome || containsLiteral literal s

/-- The call `std::regex_match(str, r)` for `r` of the shape `.*literal.*`: the text contains
the literal and, because of the two `.*`, no line terminator. -/
def matchAround (literal : List Char) (str : List Char) : Bool :=
  str.all isDot && containsLiteral literal str

/-- The predicate `Utils::isBeginOfDoxygenComment`, with the pattern `.*/\*!.*`. -/
def Utils.isBeginOfDoxygenComment (str : List Char) : Bool :=
  matchAround "/*!".toList str

/-- The predicate `Utils::isDoxygenFileDescription`, with the pattern `.*\\file.*`. -/
def Utils.isDoxygenFileDescription (str : List Char) : Bool :=
  matchAround "\\file".toList str

/-- The predicate `Utils::isEndOfComment`, with the pattern `.*\*/.*`. -/
def Utils.isEndOfComment (str : List Char) : Bool :=
  matchAround "*/".toList str

/-- The match of the pattern `#ifndef[ \t]+([A-Z0-9_]+[ \t]*)` of
`Generator::deleteIncludeGuards`: the text of group 1, the identifier with the blanks that
follow it, when the line matches. -/
def matchIfndef (line : List Char) : Option (List Char) :=
  match stripLiteral "#ifndef".toList line with
  | none => none
  | some afterIfndef =>
    let afterBlanks := afterIfndef.dropWhile isBlank
    if (afterIfndef.takeWhile isBlank).isEmpty then none
    else if (afterBlanks.takeWhile isGuardChar).isEmpty then none
    else if (afterBlanks.dropWhile isGuardChar).all isBlank then some afterBlanks
    else none

/-- The match of the pattern `#define[ \t]+` followed by the text of a guard, which
`Generator::deleteIncludeGuards` builds from group 1 of the previous match; such a text is
made of `[A-Z0-9_]` and blanks, stands for itself in a pattern, and starts with no blank. -/
def matchDefine (guard line : List Char) : Bool :=
  match stripLiteral "#define".toList line with
  | none => false
  | some afterDefine =>
    !(afterDefine.takeWhile isBlank).isEmpty && afterDefine.dropWhile isBlank == guard

/-- The match of the pattern `#endif[ \t]+/\*[ \t+]` followed by the text of a guard and by
`[ \t]\*/`: after the C comment opens there is one character among blank, tab and `+`, then
the guard, one blank and the end of the comment. -/
def matchEndif (guard line : List Char) : Bool :=
  match stripLiteral "#endif".toList line with
  | none => false
  | some afterEndif =>
    if (afterEndif.takeWhile isBlank).isEmpty then false
    else
      match stripLiteral "/*".toList (afterEndif.dropWhile isBlank) with
      | none => false
      | some afterOpen =>
        match afterOpen with
        | [] => false
        | c :: afterSeparator =>
          if c == ' ' || c == '\t' || c == '+' then
            match stripLiteral guard afterSeparator with
            | none => false
            | some afterGuard =>
              match afterGuard with
              | [] => false
              | b :: afterBlank => isBlank b && afterBlank == "*/".toList
          else false

/-- The match of the pattern `#include[ \t]+["](` srcDirName `[^"]+)["][ \t]*` of
`Generator::preprocessFile`: the text of group 1, the path, when the line matches. The name of
the source directory is taken to stand for itself in a pattern, as `include` does. -/
def matchProjectInclude (srcDirName line : List Char) : Option (List Char) :=
  match stripLiteral "#include".toList line with
  | none => none
  | some afterInclude =>
    if (afterInclude.takeWhile isBlank).isEmpty then none
    else
      match stripLiteral ['"'] (afterInclude.dropWhile isBlank) with
      | none => none
      | some afterQuote =>
        match stripLiteral srcDirName afterQuote with
        | none => none
        | some afterDir =>
          let tail := afterDir.takeWhile (fun c => c != '"')
          if tail.isEmpty then none
          else
            match stripLiteral ['"'] (afterDir.dropWhile (fun c => c != '"')) with
            | none => none
            | some rest => if rest.all isBlank then some (srcDirName ++ tail) else none

/-- The match of a line against a default constructed `std::regex()`, which "does not match
any character sequence". -/
def matchDefaultRegex (_line : List Char) : Bool :=
  false

/-! ## Files -/

/-- The loop `while (std::getline(stream, line))`: the lines of a text, `line` being the part
of the current line read so far. A last line without characters, after the last newline, is
not a line. -/
def getlines : List Char → List Char → List (List Char)
  | [], line => if line.isEmpty then [] else [line]
  | c :: rest, line =>
    if c = '\n' then line :: getlines rest [] else getlines rest (line ++ [c])

/-- The operator `File::operator+=(const File&)`: the lines of `rhs` are appended. -/
def File.operatorPlusAssign (lines rhs : List (List Char)) : List (List Char) :=
  lines ++ rhs

/-- The operator `File::operator+=(const std::string&)`: the lines of the text, read with
`std::getline`, are appended. -/
def File.operatorPlusAssignString (lines : List (List Char)) (rhs : List Char) :
    List (List Char) :=
  lines ++ getlines rhs []

/-- The procedure `File::insert`: `lines.insert(lines.begin() + position, ...)`, undefined
(`none`) for a position beyond the end. -/
def File.insert (lines : List (List Char)) (position : Nat) (file : List (List Char)) :
    Option (List (List Char)) :=
  if position ≤ lines.length then
    some (lines.take position ++ file ++ lines.drop position)
  else none

/-- The loop of `File::deleteFileDescription`. An access `lines[i]` outside the file is
undefined (`none`). -/
def File.deleteFileDescriptionLoop (lines : List (List Char)) (begin i size : Nat)
    (isFileDescription : Bool) : Option (List (List Char)) :=
  if _h : i < size then
    match lines[i]? with
    | none => none
    | some line =>
      let begin := if Utils.isBeginOfDoxygenComment line then i else begin
      let isFileDescription := isFileDescription || Utils.isDoxygenFileDescription line
      if Utils.isEndOfComment line && isFileDescription then
        File.deleteFileDescriptionLoop (lines.take begin ++ lines.drop (i + 1)) begin (i + 1)
          (size - (i - begin + 1)) false
      else
        File.deleteFileDescriptionLoop lines begin (i + 1) size isFileDescription
  else some lines
termination_by size - i
decreasing_by all_goals omega

/-- The procedure `File::deleteFileDescription`: the lines of the file after the call. -/
def File.deleteFileDescription (lines : List (List Char)) : Option (List (List Char)) :=
  File.deleteFileDescriptionLoop lines 0 0 lines.length false

/-- The insertion `includes.insert(x)` into a `std::set<std::string>`, kept as the list of its
elements in ascending order: an element already there is not inserted again. -/
def setInsert (x : List Char) : List (List Char) → List (List Char)
  | [] => [x]
  | y :: rest =>
    if x < y then x :: y :: rest
    else if y < x then y :: setInsert x rest
    else y :: rest

/-- The pattern that `Generator::deleteIncludeMainFile` builds from the name of the source
directory and the name of the main file, and only writes to the log. -/
def Generator.mainFilePattern (srcDirName mainFileName : List Char) : List Char :=
  "#include[ \\t]+[\"]".toList ++ srcDirName ++ "/".toList ++ mainFileName ++
    "[\"][ \\t]*".toList

/-- The procedure `Generator::deleteIncludeMainFile`: every line of the out file that matches
`r` is cleared, where `r` is `std::regex()`, a default constructed expression, and not the
expression of the pattern. -/
def Generator.deleteIncludeMainFile (_srcDirName _mainFileName : List Char)
    (lines : List (List Char)) : List (List Char) :=
  lines.map (fun line => if matchDefaultRegex line then [] else line)

/-- The modulus of the arithmetic of `std::size_t`. -/
def SIZE_MODULUS : Nat := 18446744073709551616

/-- The loop of `Generator::preprocessFile` and, for a file included for the first time, the
recursive call on it. `read path` gives the lines of `File(rootDir / path)`; the set
`alreadyIncludedFiles` is one object shared by all calls, so it is handed on and returned. The
line of an include is emptied by `file.lines[i].erase()` and stays in the file. The count
`size` follows the source: `size += includeFile.lines.size() - 1` and `size--`, in the
arithmetic of `std::size_t`. The first argument bounds the number of turns and calls: `none`
when it is used up, or when an access is undefined. -/
def Generator.preprocessFileLoop (read : List Char → List (List Char)) (srcDirName : List Char) :
    Nat → List (List Char) → Nat → Nat → List (List Char) →
    Option (List (List Char) × List (List Char))
  | 0, _, _, _, _ => none
  | fuel + 1, lines, i, size, alreadyIncludedFiles =>
    if i < size then
      match lines[i]? with
      | none => none
      | some line =>
        match matchProjectInclude srcDirName line with
        | none =>
          Generator.preprocessFileLoop read srcDirName fuel lines (i + 1) size
            alreadyIncludedFiles
        | some path =>
          if alreadyIncludedFiles.contains path then
            Generator.preprocessFileLoop read srcDirName fuel (lines.set i []) (i + 1)
              ((size + SIZE_MODULUS - 1) % SIZE_MODULUS) alreadyIncludedFiles
          else
            match Generator.preprocessFileLoop read srcDirName fuel (read path) 0
                (read path).length (setInsert path alreadyIncludedFiles) with
            | none => none
            | some (includeFile, alreadyIncludedFiles) =>
              match File.insert (lines.set i []) i includeFile with
              | none => none
              | some lines =>
                Generator.preprocessFileLoop read srcDirName fuel lines (i + 1)
                  ((size + (includeFile.length + SIZE_MODULUS - 1) % SIZE_MODULUS) %
                    SIZE_MODULUS)
                  alreadyIncludedFiles
    else some (lines, alreadyIncludedFiles)

/-- The procedure `Generator::preprocessFile` on the lines of a file, with the set of the files
already included: the lines after the call and the set. -/
def Generator.preprocessFile (read : List Char → List (List Char)) (srcDirName : List Char)
    (fuel : Nat) (lines : List (List Char)) (alreadyIncludedFiles : List (List Char)) :
    Option (List (List Char) × List (List Char)) :=
  Generator.preprocessFileLoop read srcDirName fuel lines 0 lines.length alreadyIncludedFiles

/-- One turn of the loop of `Generator::deleteIncludeGuards` on the lines of the out file and
the stack `guardIdentifiers`, whose top is the head of the list. The line `i + 1` is read when
line `i` matches the first pattern: outside the file the read is undefined (`none`). -/
def Generator.deleteIncludeGuardsStep (state : List (List Char) × List (List Char)) (i : Nat) :
    Option (List (List Char) × List (List Char)) :=
  match state.1[i]? with
  | none => none
  | some line =>
    let afterIfndef : Option (List (List Char) × List (List Char)) :=
      match matchIfndef line with
      | none => some state
      | some guard =>
        match state.1[i + 1]? with
        | none => none
        | some next =>
          if matchDefine guard next then
            some ((state.1.set i []).set (i + 1) [], guard :: state.2)
          else some state
    match afterIfndef with
    | none => none
    | some (lines, guardIdentifiers) =>
      match guardIdentifiers with
      | [] => some (lines, guardIdentifiers)
      | top :: below =>
        match lines[i]? with
        | none => none
        | some current =>
          if matchEndif top current then some (lines.set i [], below)
          else some (lines, guardIdentifiers)

/-- The procedure `Generator::deleteIncludeGuards`: the loop runs for
`i = 0, ..., lines.size() - 1`, the number of lines being the same at every turn since lines
are only cleared; the result is the lines of the out file. -/
def Generator.deleteIncludeGuards (lines : List (List Char)) : Option (List (List Char)) :=
  ((List.range lines.length).foldlM Generator.deleteIncludeGuardsStep (lines, [])).map
    (fun state => state.1)

/-- The constant `CONTENT_LINE_INDEX`. -/
def CONTENT_LINE_INDEX : Nat := 8

/-- The constant `OUT_FILE_TEMPLATE`, a raw string literal of eleven lines. -/
def OUT_FILE_TEMPLATE : List Char :=
  ("/*!\n *  \\file creolization.h\n *  \\brief TODO\n */\n\n" ++
    "#ifndef _CREOLIZATION_H_\n#define _CREOLIZATION_H_\n\n\n" ++
    "#endif /* _CREOLIZATION_H_ */\n\n").toList

/-- The member `templateOutFile` as the constructor of `Generator` fills it:
`this->templateOutFile += templateOutFile`, on a file without lines. -/
def Generator.templateOutFile (templateOutFile : List Char) : List (List Char) :=
  File.operatorPlusAssignString [] templateOutFile

/-- The function `Generator::insertOutFileInTemplate`: a new file gets the lines of the
template, then the out file is inserted at `contentLineIndex`. -/
def Generator.insertOutFileInTemplate (templateOutFile : List (List Char))
    (contentLineIndex : Nat) (outFile : List (List Char)) : Option (List (List Char)) :=
  File.insert (File.operatorPlusAssign [] templateOutFile) contentLineIndex outFile

/-! ## Sample files -/

/-- Two sources in a row, each with its file description. -/
def sampleTwoDescriptions : List (List Char) :=
  ["/*!".toList, " * \\file a.h".toList, " */".toList, "int a;".toList,
   "/*!".toList, " * \\file b.h".toList, " */".toList, "int b;".toList]

/-- The sources of a project: `include/a.h` and `include/b.h`, one line each; any other path
names no file, and reading it gives no line. -/
def sampleRead (path : List Char) : List (List Char) :=
  if path = "include/a.h".toList then ["int a;".toList]
  else if path = "include/b.h".toList then ["int b;".toList]
  else []

/-- A file whose last line opens an include guard. -/
def sampleEndsWithIfndef : List (List Char) :=
  ["int x;".toList, "#ifndef FOO".toList]

/-- A file in which the line that opens an include guard is followed by an empty last line. -/
def sampleEndsWithEmpty : List (List Char) :=
  ["int x;".toList, "#ifndef FOO".toList, []]

/-- A file that includes the two sources of `sampleRead`. -/
def sampleIncludes : List (List Char) :=
  ["#include \"include/a.h\"".toList, "#include \"include/b.h\"".toList]

end SingleHeaderGenerator

namespace TreeBinding

/-! ## Lemmas on the translator -/

theorem isNumber_iff (s : List Char) :
    Translator.isNumber s = true ↔ s ≠ [] ∧ ∀ c ∈ s, isdigit c = true := by
  unfold Translator.isNumber
  cases s with
  | nil => simp
  | cons a t =>
    simp only [List.isEmpty_cons, Bool.not_false, Bool.true_and, List.isEmpty_eq_true,
      List.dropWhile_eq_nil_iff, ne_eq, reduceCtorEq, not_false_eq_true, true_and]

theorem isdigit_iff (c : Char) : isdigit c = true ↔ ('0' ≤ c ∧ c ≤ '9') := by
  simp [isdigit]

theorem digitChar_spec : ∀ d, d < 10 → isdigit (digitChar d) = true ∧ digitValue (digitChar d) = d ∧
    isspace (digitChar d) = false ∧ digitChar d ≠ '-' ∧ digitChar d ≠ '+' := by
  decide

theorem decimal_ne_nil (n : Nat) : decimal n ≠ [] := by
  rw [decimal]
  split <;> simp

theorem decimal_isdigit (n : Nat) : ∀ c ∈ decimal n, isdigit c = true := by
  induction n using Nat.strong_induction_on with
  | _ n ih =>
    rw [decimal]
    split
    · rename_i h
      intro c hc
      simp only [List.mem_singleton] at hc
      subst hc
      exact (digitChar_spec n h).1
    · rename_i h
      intro c hc
      rcases List.mem_append.1 hc with hc | hc
      · exact ih (n / 10) (by omega) c hc
      · simp only [List.mem_singleton] at hc
        subst hc
        exact (digitChar_spec (n % 10) (Nat.mod_lt _ (by decide))).1

theorem takeWhile_isdigit_of_all {s : List Char} (h : ∀ c ∈ s, isdigit c = true) :
    s.takeWhile isdigit = s := by
  rw [List.takeWhile_eq_self_iff]
  exact h

theorem foldl_decimal (n : Nat) :
    (decimal n).foldl (fun acc c => acc * 10 + digitValue c) 0 = n := by
  induction n using Nat.strong_induction_on with
  | _ n ih =>
    rw [decimal]
    split
    · rename_i h
      simp [(digitChar_spec n h).2.1]
    · rename_i h
      rw [List.foldl_append, ih (n / 10) (by omega)]
      simp only [List.foldl_cons, List.foldl_nil]
      rw [(digitChar_spec (n % 10) (Nat.mod_lt _ (by decide))).2.1]
      omega

theorem digitsValue_decimal (n : Nat) : digitsValue (decimal n) = n := by
  unfold digitsValue
  rw [takeWhile_isdigit_of_all (decimal_isdigit n)]
  exact foldl_decimal n

theorem isNumber_decimal (n : Nat) : Translator.isNumber (decimal n) = true :=
  (isNumber_iff _).2 ⟨decimal_ne_nil n, decimal_isdigit n⟩

theorem atoll_decimal (n : Nat) (hn : (n : Int) ≤ LLONG_MAX) : atoll (decimal n) = n := by
  have hne := decimal_ne_nil n
  have hall := decimal_isdigit n
  have hval := digitsValue_decimal n
  generalize decimal n = l at hne hall hval
  cases l with
  | nil => exact absurd rfl hne
  | cons c t =>
    have hc : isdigit c = true := hall c (List.mem_cons_self _ _)
    have hsp : isspace c = false := by
      rw [isdigit_iff] at hc
      have h1 : ¬ c ≤ Char.ofNat 32 := by
        intro h
        exact absurd (le_trans hc.1 h) (by decide)
      unfold isspace
      simp only [Bool.or_eq_false_iff, decide_eq_false_iff_not]
      refine ⟨⟨⟨⟨⟨?_, ?_⟩, ?_⟩, ?_⟩, ?_⟩, ?_⟩ <;>
        (intro h; subst h; exact h1 (by decide))
    have hm : c ≠ '-' := by
      intro h; subst h; exact absurd hc (by decide)
    have hp : c ≠ '+' := by
      intro h; subst h; exact absurd hc (by decide)
    unfold atoll
    rw [List.dropWhile_cons_of_neg (by simp [hsp])]
    simp only [hm, hp, if_false, hval]
    unfold clampLongLong
    have h0 : ¬ ((n : Int) < LLONG_MIN) := by
      have : (0 : Int) ≤ n := Int.ofNat_nonneg n
      unfold LLONG_MIN
      omega
    rw [if_neg h0, if_neg (not_lt.2 hn)]

/-! ## Theorems on the translator -/

/-- C1: `Translator::fromString<Integer>` raises a conversion error exactly for the strings
that are empty or contain a character outside `'0'..'9'`; it never raises for a non-empty
string of digits, and it raises for the signed texts `-5`, `+5` and for the texts ` 5`, `5 `
with white space around the digit. -/
theorem fromString_raises_iff :
    (∀ s : List Char, (∃ e, Translator.fromString s = Except.error e) ↔
        (s = [] ∨ ∃ c ∈ s, ¬ ('0' ≤ c ∧ c ≤ '9'))) ∧
    (∀ s : List Char, s ≠ [] → (∀ c ∈ s, '0' ≤ c ∧ c ≤ '9') →
        ∃ v, Translator.fromString s = Except.ok v) ∧
    (∃ e, Translator.fromString ['-', '5'] = Except.error e) ∧
    (∃ e, Translator.fromString ['+', '5'] = Except.error e) ∧
    (∃ e, Translator.fromString [' ', '5'] = Except.error e) ∧
    (∃ e, Translator.fromString ['5', ' '] = Except.error e) := by
  have key : ∀ s : List Char, Translator.isNumber s = true ↔
      (s ≠ [] ∧ ∀ c ∈ s, '0' ≤ c ∧ c ≤ '9') := by
    intro s
    rw [isNumber_iff]
    simp only [isdigit_iff]
  refine ⟨?_, ?_, ⟨_, rfl⟩, ⟨_, rfl⟩, ⟨_, rfl⟩, ⟨_, rfl⟩⟩
  · intro s
    unfold Translator.fromString
    by_cases h : Translator.isNumber s = true
    · rw [if_pos h]
      have h2 := (key s).1 h
      constructor
      · rintro ⟨e, he⟩
        cases he
      · rintro (h3 | ⟨c, hc, h3⟩)
        · exact absurd h3 h2.1
        · exact absurd (h2.2 c hc) h3
    · rw [if_neg h]
      constructor
      · intro _
        by_contra hcon
        push_neg at hcon
        exact h ((key s).2 ⟨hcon.1, hcon.2⟩)
      · intro _
        exact ⟨_, rfl⟩
  · intro s hne hall
    unfold Translator.fromString
    rw [if_pos ((key s).2 ⟨hne, hall⟩)]
    exact ⟨_, rfl⟩

/-- Witness of C1: the text `22` is not empty and all its characters are digits, so its
conversion does not raise. -/
theorem fromString_raises_iff_witness :
    ∃ v, Translator.fromString ['2', '2'] = Except.ok v :=
  fromString_raises_iff.2.1 ['2', '2'] (by decide) (by decide)

/-- C4, as stated, fails: the integer `-5` lies in the range of `Integer`, its rendering
is the text `-5`, and parsing that text raises instead of yielding `-5`. -/
theorem roundtrip_negative_raises :
    LLONG_MIN ≤ (-5 : Int) ∧ (-5 : Int) ≤ LLONG_MAX ∧
    Translator.toString (-5) = ['-', '5'] ∧
    Translator.fromString (Translator.toString (-5)) = Except.error (Exception.out_of_range "") ∧
    ¬ (Translator.fromString (Translator.toString (-5)) = Except.ok (-5)) := by
  have h : Translator.toString (-5) = ['-', '5'] := by
    simp [Translator.toString, sprintf_lld, decimal, digitChar]
  refine ⟨by decide, by decide, h, ?_, ?_⟩
  · rw [h]; rfl
  · rw [h]; intro hcon; cases hcon

/-- C4, amended: for every value `v` of `Integer` that is not negative, rendering `v` with
`Translator::toString<Integer>` and parsing the text with `Translator::fromString<Integer>`
succeeds and yields exactly `v`. -/
theorem roundtrip_nonneg (v : Integer) (h0 : 0 ≤ v) (hmax : v ≤ LLONG_MAX) :
    Translator.fromString (Translator.toString v) = Except.ok v := by
  unfold Translator.toString sprintf_lld Translator.fromString
  rw [if_neg (not_lt.2 h0), if_pos (isNumber_decimal _)]
  have hv : ((v.toNat : Nat) : Int) = v := Int.toNat_of_nonneg h0
  rw [atoll_decimal v.toNat (by rw [hv]; exact hmax), hv]

/-- Witness of the amended C4 at `v = 22`. -/
theorem roundtrip_nonneg_witness :
    Translator.fromString (Translator.toString 22) = Except.ok 22 :=
  roundtrip_nonneg 22 (by decide) (by decide)

/-! ## Lemmas on records -/

theorem operatorEq_loop {V : Type} (compare : BasicNodeData V → BasicNodeData V → Bool)
    (self rhs : BasicTree V) (n : Nat)
    (h1 : n ≤ self.nodes.length) (h2 : n ≤ rhs.nodes.length) :
    ∃ r, (List.range n).foldlM (BasicTree.operatorEqStep compare self rhs) true = some r ∧
      (r = true ↔ ∀ i (ha : i < self.nodes.length) (hb : i < rhs.nodes.length), i < n →
          BasicNodeData.operatorEq compare self.nodes[i] rhs.nodes[i] = true) := by
  induction n with
  | zero =>
    refine ⟨true, rfl, ?_⟩
    simp
  | succ n ih =>
    obtain ⟨r, hr, hiff⟩ := ih (by omega) (by omega)
    have hn1 : n < self.nodes.length := by omega
    have hn2 : n < rhs.nodes.length := by omega
    rw [List.range_succ, List.foldlM_append, hr]
    cases r with
    | false =>
      refine ⟨false, by simp [BasicTree.operatorEqStep], ?_⟩
      constructor
      · intro h
        cases h
      · intro h
        exact hiff.2 (fun i ha hb hi => h i ha hb (by omega))
    | true =>
      refine ⟨BasicNodeData.operatorEq compare self.nodes[n] rhs.nodes[n], ?_, ?_⟩
      · simp [BasicTree.operatorEqStep, BasicTree.operatorIndex, List.getElem?_eq_getElem hn1,
          List.getElem?_eq_getElem hn2]
      · have hall := hiff.1 rfl
        constructor
        · intro h i ha hb hi
          rcases Nat.lt_succ_iff_lt_or_eq.1 hi with hlt | heq
          · exact hall i ha hb hlt
          · subst heq
            exact h
        · intro h
          exact h n hn1 hn2 (by omega)

theorem operatorEq_spec {V : Type} (compare : BasicNodeData V → BasicNodeData V → Bool)
    (self rhs : BasicTree V) (h : self.nodes.length = rhs.nodes.length) :
    ∃ r, BasicTree.operatorEq compare self rhs = some r ∧
      (r = true ↔ ∀ i (ha : i < self.nodes.length) (hb : i < rhs.nodes.length),
          BasicNodeData.operatorEq compare self.nodes[i] rhs.nodes[i] = true) := by
  obtain ⟨r, hr, hiff⟩ := operatorEq_loop compare self rhs self.nodes.length le_rfl (by omega)
  refine ⟨r, hr, ?_⟩
  rw [hiff]
  constructor
  · intro hall i ha hb
    exact hall i ha hb ha
  · intro hall i ha hb _
    exact hall i ha hb

theorem all_eq_of_forall₂ {α : Type} (p : α → Bool) {l1 l2 : List α}
    (h : List.Forall₂ (fun a b => p a = p b) l1 l2) : l2.all p = l1.all p := by
  induction h with
  | nil => rfl
  | cons hab _ ih => simp only [List.all_cons, ih, hab]

/-! ## Theorems on records -/

/-- C2: `BasicNodeData::operator==` is true as soon as one of the two fields is not valid,
whatever the stored values, and is `compare` when both are valid; hence two records of one
type that both leave field `k` unset, and whose other fields compare equal, are equal by
`BasicTree::operator==`, whatever the values stored in field `k`. -/
theorem nodeEq_wildcard {V : Type} (compare : BasicNodeData V → BasicNodeData V → Bool) :
    (∀ a b : BasicNodeData V,
      (a.validity = false ∨ b.validity = false → BasicNodeData.operatorEq compare a b = true) ∧
      (a.validity = true → b.validity = true →
        BasicNodeData.operatorEq compare a b = compare a b)) ∧
    (∀ (x y : BasicTree V) (k : Nat), x.nodes.length = y.nodes.length →
      (∀ (hx : k < x.nodes.length) (hy : k < y.nodes.length),
        x.nodes[k].validity = false ∧ y.nodes[k].validity = false) →
      (∀ i (hx : i < x.nodes.length) (hy : i < y.nodes.length), i ≠ k →
        BasicNodeData.operatorEq compare x.nodes[i] y.nodes[i] = true) →
      BasicTree.operatorEq compare x y = some true) := by
  have hnode : ∀ a b : BasicNodeData V,
      (a.validity = false ∨ b.validity = false → BasicNodeData.operatorEq compare a b = true) ∧
      (a.validity = true → b.validity = true →
        BasicNodeData.operatorEq compare a b = compare a b) := by
    intro a b
    unfold BasicNodeData.operatorEq
    constructor
    · rintro (h | h) <;> simp [h]
    · intro ha hb
      simp [ha, hb]
  refine ⟨hnode, ?_⟩
  intro x y k hlen hk hother
  obtain ⟨r, hr, hiff⟩ := operatorEq_spec compare x y hlen
  have hall : r = true := by
    rw [hiff]
    intro i ha hb
    by_cases hik : i = k
    · subst hik
      exact (hnode _ _).1 (Or.inl (hk ha hb).1)
    · exact hother i ha hb hik
  rw [hr, hall]

/-- Witness of C2: `sampleLeft` and `sampleRight` both leave field 1 unset, hold the different
values `2` and `3` in it, and compare equal. -/
theorem nodeEq_wildcard_witness :
    sampleLeft.nodes[1]?.map (fun f => f.value) = some 2 ∧
    sampleRight.nodes[1]?.map (fun f => f.value) = some 3 ∧
    BasicTree.operatorEq sampleCompare sampleLeft sampleRight = some true :=
  ⟨by decide, by decide,
    (nodeEq_wildcard sampleCompare).2 sampleLeft sampleRight 1 (by decide)
      (fun _ _ => ⟨rfl, rfl⟩)
      (fun i hx _ hne => by
        have hi : i < 2 := hx
        have h0 : i = 0 := by omega
        subst h0
        rfl)⟩

/-- C3: for two records of the same type, hence with the same number `n` of fields,
`BasicTree::operator==` returns a result, and the result is true exactly when the field
comparison `a[i] == b[i]` is true at every index `i < n`; it is true when `n = 0`. -/
theorem treeEq_iff_all_fields {V : Type} (compare : BasicNodeData V → BasicNodeData V → Bool)
    (a b : BasicTree V) (h : a.nodesNum = b.nodesNum) :
    ∃ r, BasicTree.operatorEq compare a b = some r ∧
      (r = true ↔ ∀ i (ha : i < a.nodes.length) (hb : i < b.nodes.length),
          BasicNodeData.operatorEq compare a.nodes[i] b.nodes[i] = true) ∧
      (a.nodesNum = 0 → r = true) := by
  obtain ⟨r, hr, hiff⟩ := operatorEq_spec compare a b h
  refine ⟨r, hr, hiff, ?_⟩
  intro h0
  rw [hiff]
  intro i ha _
  have hi : i < a.nodesNum := ha
  omega

/-- Witness of C3 at the two-field records `sampleLeft` and `sampleRight`. -/
theorem treeEq_iff_all_fields_witness :
    ∃ r, BasicTree.operatorEq sampleCompare sampleLeft sampleRight = some r ∧
      (r = true ↔ ∀ i (_ha : i < sampleLeft.nodes.length) (hb : i < sampleRight.nodes.length),
          BasicNodeData.operatorEq sampleCompare sampleLeft.nodes[i] sampleRight.nodes[i]
            = true) ∧
      (sampleLeft.nodesNum = 0 → r = true) :=
  treeEq_iff_all_fields sampleCompare sampleLeft sampleRight (by decide)

/-- C5: when the virtual `reset` of every field clears the validity of the field, a record
with at least one declared field is not valid after `BasicTree::reset`, and a record with no
declared field is valid after it. -/
theorem reset_then_isValid {V : Type} (reset : BasicNodeData V → BasicNodeData V)
    (hreset : ∀ node, (reset node).validity = false) (r : BasicTree V) :
    (r.nodes ≠ [] → (BasicTree.reset reset r).isValid = false) ∧
    (r.nodes = [] → (BasicTree.reset reset r).isValid = true) := by
  unfold BasicTree.reset BasicTree.isValid
  constructor
  · intro hne
    cases hnodes : r.nodes with
    | nil => exact absurd hnodes hne
    | cons f t => simp [hreset f]
  · intro hnil
    simp [hnil]

/-- Witness of C5: the fully valid three-field record `sampleMixed` is not valid once reset
with the field reset of the specification, and the record without fields is valid. -/
theorem reset_then_isValid_witness :
    sampleMixed.isValid = true ∧
    (BasicTree.reset (NodeData.reset 0) sampleMixed).isValid = false ∧
    (BasicTree.reset (NodeData.reset 0) ⟨"Empty", []⟩).isValid = true :=
  ⟨by decide,
    (reset_then_isValid (NodeData.reset 0) (fun _ => rfl) sampleMixed).1 (by decide),
    (reset_then_isValid (NodeData.reset (0 : Int)) (fun _ => rfl) ⟨"Empty", []⟩).2 rfl⟩

/-- C6: a record with at least one field, all of whose fields are leaves with cardinality
`NOT_SPECIFIED` and validity false, has `isLeafsValid()` false and `isMandatoryLeafsValid()`
true. -/
theorem optional_leaves_unset {V : Type} (r : BasicTree V) (hne : r.nodes ≠ [])
    (hall : ∀ f ∈ r.nodes, f.isLeaf = true ∧ f.requiredNum.value = NodesNum.NOT_SPECIFIED ∧
      f.validity = false) :
    r.isLeafsValid = false ∧ r.isMandatoryLeafsValid = true := by
  unfold BasicTree.isLeafsValid BasicTree.isMandatoryLeafsValid
  constructor
  · cases hnodes : r.nodes with
    | nil => exact absurd hnodes hne
    | cons f t =>
      have hf := hall f (by rw [hnodes]; exact List.mem_cons_self _ _)
      simp [hf.1, hf.2.2]
  · rw [List.all_eq_true]
    intro f hf
    have h := hall f hf
    simp [h.1, h.2.1]

/-- Witness of C6 at `sampleOptional`, a record of two unset optional leaves. -/
theorem optional_leaves_unset_witness :
    sampleOptional.isLeafsValid = false ∧ sampleOptional.isMandatoryLeafsValid = true :=
  optional_leaves_unset sampleOptional (by decide) (by decide)

/-- C7: `BasicTree::isValid` returns true exactly when every field of the record, leaf or
composite, has validity true. -/
theorem isValid_iff {V : Type} (r : BasicTree V) :
    r.isValid = true ↔ ∀ f ∈ r.nodes, f.validity = true := by
  unfold BasicTree.isValid
  rw [List.all_eq_true]

/-- C8: `BasicTree::containValidNodes` returns true exactly when at least one field of the
record has validity true; it returns false for a record with no fields. -/
theorem containValidNodes_iff {V : Type} (r : BasicTree V) :
    (r.containValidNodes = true ↔ ∃ f ∈ r.nodes, f.validity = true) ∧
    (r.nodes = [] → r.containValidNodes = false) := by
  unfold BasicTree.containValidNodes
  constructor
  · rw [List.any_eq_true]
  · intro h
    rw [h]
    rfl

/-- Witness of C8: the record without fields contains no valid node. -/
theorem containValidNodes_iff_witness :
    BasicTree.containValidNodes (⟨"Empty", []⟩ : BasicTree Int) = false :=
  (containValidNodes_iff (⟨"Empty", []⟩ : BasicTree Int)).2 rfl

/-- C9: `BasicTree::isLeafsValid` returns true exactly when every leaf field has validity
true; and two records whose fields agree, position by position, on being a leaf and, for the
leaves, on validity, get the same result: the validity of composite fields does not count. -/
theorem isLeafsValid_iff {V : Type} (r : BasicTree V) :
    (r.isLeafsValid = true ↔ ∀ f ∈ r.nodes, f.isLeaf = true → f.validity = true) ∧
    (∀ r2 : BasicTree V,
      List.Forall₂ (fun f f2 => f.isLeaf = f2.isLeaf ∧
        (f.isLeaf = true → f.validity = f2.validity)) r.nodes r2.nodes →
      r2.isLeafsValid = r.isLeafsValid) := by
  unfold BasicTree.isLeafsValid
  constructor
  · rw [List.all_eq_true]
    constructor
    · intro h f hf hleaf
      have := h f hf
      simpa [hleaf] using this
    · intro h f hf
      by_cases hleaf : f.isLeaf = true
      · simp [hleaf, h f hf hleaf]
      · simp [hleaf]
  · intro r2 hrel
    apply all_eq_of_forall₂
    refine List.Forall₂.imp ?_ hrel
    intro a b hab
    by_cases hleaf : a.isLeaf = true
    · have hb : b.isLeaf = true := by rw [← hab.1]; exact hleaf
      simp [hleaf, hb, hab.2 hleaf]
    · have hb : ¬ b.isLeaf = true := by rw [← hab.1]; exact hleaf
      simp [hleaf, hb]

/-- Witness of C9: `sampleCompositeUnset` is `sampleMixed` with its composite field unset,
and both have the same `isLeafsValid()`. -/
theorem isLeafsValid_iff_witness :
    sampleCompositeUnset.isLeafsValid = sampleMixed.isLeafsValid :=
  (isLeafsValid_iff sampleMixed).2 sampleCompositeUnset
    (List.Forall₂.cons ⟨rfl, fun _ => rfl⟩
      (List.Forall₂.cons ⟨rfl, fun _ => rfl⟩
        (List.Forall₂.cons ⟨rfl, fun h => absurd h (by decide)⟩ List.Forall₂.nil)))

/-- C10: `BasicTree::isMandatoryLeafsValid` returns true exactly when every field that is a
leaf and whose required cardinality is not `NOT_SPECIFIED` (-1) has validity true; and two
records whose fields agree, position by position, on being a leaf, on the required
cardinality and, for the mandatory leaves, on validity, get the same result: optional leaves
and composite fields do not count. -/
theorem isMandatoryLeafsValid_iff {V : Type} (r : BasicTree V) :
    (r.isMandatoryLeafsValid = true ↔
      ∀ f ∈ r.nodes, f.isLeaf = true → f.requiredNum.value ≠ -1 → f.validity = true) ∧
    (∀ r2 : BasicTree V,
      List.Forall₂ (fun f f2 => f.isLeaf = f2.isLeaf ∧ f.requiredNum = f2.requiredNum ∧
        (f.isLeaf = true → f.requiredNum.value ≠ -1 → f.validity = f2.validity))
        r.nodes r2.nodes →
      r2.isMandatoryLeafsValid = r.isMandatoryLeafsValid) := by
  unfold BasicTree.isMandatoryLeafsValid NodesNum.NOT_SPECIFIED
  constructor
  · rw [List.all_eq_true]
    constructor
    · intro h f hf hleaf hnum
      have := h f hf
      simpa [hleaf, hnum] using this
    · intro h f hf
      by_cases hleaf : f.isLeaf = true
      · by_cases hnum : f.requiredNum.value = -1
        · simp [hleaf, hnum]
        · simp [hleaf, hnum, h f hf hleaf hnum]
      · simp [hleaf]
  · intro r2 hrel
    apply all_eq_of_forall₂
    refine List.Forall₂.imp ?_ hrel
    intro a b hab
    rw [← hab.2.1, ← hab.1]
    by_cases hleaf : a.isLeaf = true
    · by_cases hnum : a.requiredNum.value = -1
      · simp [hleaf, hnum]
      · simp [hleaf, hnum, hab.2.2 hleaf hnum]
    · simp [hleaf]

/-- Witness of C10: `sampleMixedUnset` is `sampleMixed` with the optional leaf and the
composite field unset, and both have the same `isMandatoryLeafsValid()`. -/
theorem isMandatoryLeafsValid_iff_witness :
    sampleMixedUnset.isMandatoryLeafsValid = sampleMixed.isMandatoryLeafsValid :=
  (isMandatoryLeafsValid_iff sampleMixed).2 sampleMixedUnset
    (List.Forall₂.cons ⟨rfl, rfl, fun _ _ => rfl⟩
      (List.Forall₂.cons ⟨rfl, rfl, fun _ h => absurd rfl h⟩
        (List.Forall₂.cons ⟨rfl, rfl, fun h => absurd h (by decide)⟩ List.Forall₂.nil)))

/-! ## Lemmas on decimal texts -/

theorem foldl_eq_base10 (s : List Char) (acc : Nat) :
    s.foldl (fun acc c => acc * 10 + digitValue c) acc = acc * 10 ^ s.length + base10Value s := by
  induction s generalizing acc with
  | nil => simp [base10Value]
  | cons c t ih =>
    simp only [List.foldl_cons, ih, List.length_cons, base10Value, pow_succ]
    ring

theorem digitsValue_eq_base10 {s : List Char} (hall : ∀ c ∈ s, isdigit c = true) :
    digitsValue s = base10Value s := by
  unfold digitsValue
  rw [takeWhile_isdigit_of_all hall, foldl_eq_base10]
  simp

theorem isdigit_not_sign {c : Char} (hc : isdigit c = true) :
    isspace c = false ∧ c ≠ '-' ∧ c ≠ '+' := by
  refine ⟨?_, ?_, ?_⟩
  · rw [isdigit_iff] at hc
    have h1 : ¬ c ≤ Char.ofNat 32 := by
      intro h
      exact absurd (le_trans hc.1 h) (by decide)
    unfold isspace
    simp only [Bool.or_eq_false_iff, decide_eq_false_iff_not]
    refine ⟨⟨⟨⟨⟨?_, ?_⟩, ?_⟩, ?_⟩, ?_⟩, ?_⟩ <;>
      (intro h; subst h; exact h1 (by decide))
  · intro h; subst h; exact absurd hc (by decide)
  · intro h; subst h; exact absurd hc (by decide)

theorem atoll_of_digits {s : List Char} (hne : s ≠ []) (hall : ∀ c ∈ s, isdigit c = true) :
    atoll s = clampLongLong (digitsValue s) := by
  cases s with
  | nil => exact absurd rfl hne
  | cons c t =>
    obtain ⟨hsp, hm, hp⟩ := isdigit_not_sign (hall c (List.mem_cons_self _ _))
    unfold atoll
    rw [List.dropWhile_cons_of_neg (by simp [hsp])]
    simp only [hm, hp, if_false]

theorem clampLongLong_of_fits {n : Nat} (hn : (n : Int) ≤ LLONG_MAX) :
    clampLongLong (n : Int) = n := by
  unfold clampLongLong
  have h0 : ¬ ((n : Int) < LLONG_MIN) := by
    have : (0 : Int) ≤ n := Int.ofNat_nonneg n
    unfold LLONG_MIN
    omega
  rw [if_neg h0, if_neg (not_lt.2 hn)]

theorem fromString_of_digits {s : List Char} (hne : s ≠ [])
    (hall : ∀ c ∈ s, isdigit c = true) (hfit : (base10Value s : Int) ≤ LLONG_MAX) :
    Translator.fromString s = Except.ok (base10Value s : Int) := by
  unfold Translator.fromString
  rw [if_pos ((isNumber_iff s).2 ⟨hne, hall⟩), atoll_of_digits hne hall,
    digitsValue_eq_base10 hall, clampLongLong_of_fits hfit]

/-- C16: for every non-empty string `s` of decimal digits whose base-10 value fits in
`Integer`, `Translator::fromString<Integer>` stores exactly the number that `s` denotes in
base 10; a leading zero changes nothing; the texts `22`, `1` and `11` of the test give 22, 1
and 11. -/
theorem fromString_base10 :
    (∀ s : List Char, s ≠ [] → (∀ c ∈ s, '0' ≤ c ∧ c ≤ '9') →
      (base10Value s : Int) ≤ LLONG_MAX →
      Translator.fromString s = Except.ok (base10Value s : Int)) ∧
    (∀ s : List Char, s ≠ [] → (∀ c ∈ s, '0' ≤ c ∧ c ≤ '9') →
      (base10Value s : Int) ≤ LLONG_MAX →
      Translator.fromString ('0' :: s) = Translator.fromString s) ∧
    Translator.fromString ['2', '2'] = Except.ok 22 ∧
    Translator.fromString ['1'] = Except.ok 1 ∧
    Translator.fromString ['1', '1'] = Except.ok 11 := by
  have hzero : ∀ s : List Char, base10Value ('0' :: s) = base10Value s := by
    intro s
    simp [base10Value, digitValue]
  refine ⟨?_, ?_, rfl, rfl, rfl⟩
  · intro s hne hall hfit
    exact fromString_of_digits hne (fun c hc => (isdigit_iff c).2 (hall c hc)) hfit
  · intro s hne hall hfit
    have hall2 : ∀ c ∈ s, isdigit c = true := fun c hc => (isdigit_iff c).2 (hall c hc)
    have hall3 : ∀ c ∈ '0' :: s, isdigit c = true := by
      intro c hc
      rcases List.mem_cons.1 hc with h | h
      · subst h; decide
      · exact hall2 c h
    rw [fromString_of_digits (List.cons_ne_nil _ _) hall3 (by rw [hzero]; exact hfit),
      fromString_of_digits hne hall2 hfit, hzero]

/-- Witness of C16 at the text `007`, whose value 7 fits in `Integer`. -/
theorem fromString_base10_witness :
    Translator.fromString ['0', '0', '7'] = Except.ok ((7 : Nat) : Int) :=
  fromString_base10.1 ['0', '0', '7'] (by decide) (by decide) (by decide)

/-! ## Lemmas on cardinalities and their texts -/

theorem decimal_injective {n m : Nat} (h : decimal n = decimal m) : n = m := by
  rw [← foldl_decimal n, ← foldl_decimal m, h]

theorem minus_not_mem_decimal (n : Nat) (t : List Char) : decimal n ≠ '-' :: t := by
  intro h
  have := decimal_isdigit n '-' (by rw [h]; exact List.mem_cons_self _ _)
  exact absurd this (by decide)

theorem to_string_injective {v w : Int} (h : to_string v = to_string w) : v = w := by
  unfold to_string at h
  by_cases hv : v < 0 <;> by_cases hw : w < 0
  · rw [if_pos hv, if_pos hw] at h
    have := decimal_injective (List.cons.inj h).2
    omega
  · rw [if_pos hv, if_neg hw] at h
    exact absurd h.symm (minus_not_mem_decimal _ _)
  · rw [if_neg hv, if_pos hw] at h
    exact absurd h (minus_not_mem_decimal _ _)
  · rw [if_neg hv, if_neg hw] at h
    have := decimal_injective h
    omega

theorem to_string_ne_of_letter (v : Int) (c : Char) (t : List Char)
    (hc : isdigit c = false) (hm : c ≠ '-') : to_string v ≠ c :: t := by
  unfold to_string
  intro h
  split at h
  · exact hm (List.cons.inj h).1.symm
  · have := decimal_isdigit _ c (by rw [h]; exact List.mem_cons_self _ _)
    rw [hc] at this
    cases this

theorem toString_eq_notSpecified_iff (r : NodesNum) :
    r.toString = "not specified".toList ↔ r.value = -1 := by
  unfold NodesNum.toString NodesNum.NOT_SPECIFIED NodesNum.MORE_THAN_0
  constructor
  · intro h
    by_contra hne
    rw [if_neg hne] at h
    split at h
    · exact absurd h (by decide)
    · exact to_string_ne_of_letter r.value 'n' "ot specified".toList (by decide) (by decide) h
  · intro h
    rw [if_pos h]

theorem toString_eq_moreThan0_iff (r : NodesNum) :
    r.toString = "more than 0".toList ↔ r.value = -2 := by
  unfold NodesNum.toString NodesNum.NOT_SPECIFIED NodesNum.MORE_THAN_0
  constructor
  · intro h
    by_contra hne
    split at h
    · exact absurd h (by decide)
    · exact to_string_ne_of_letter r.value 'm' "ore than 0".toList (by decide) (by decide) h
  · intro h
    rw [if_neg (by omega), if_pos h]

theorem toString_of_count (r : NodesNum) (h1 : r.value ≠ -1) (h2 : r.value ≠ -2) :
    r.toString = to_string r.value := by
  unfold NodesNum.toString NodesNum.NOT_SPECIFIED NodesNum.MORE_THAN_0
  rw [if_neg h1, if_neg h2]

theorem NodesNum_toString_injective {r r2 : NodesNum} (h : r.toString = r2.toString) :
    r = r2 := by
  have hval : r.value = r2.value := by
    by_cases h1 : r.value = -1
    · have := (toString_eq_notSpecified_iff r).2 h1
      rw [h] at this
      rw [h1, (toString_eq_notSpecified_iff r2).1 this]
    · by_cases h2 : r.value = -2
      · have := (toString_eq_moreThan0_iff r).2 h2
        rw [h] at this
        rw [h2, (toString_eq_moreThan0_iff r2).1 this]
      · have h3 : r2.value ≠ -1 := by
          intro hc
          have := (toString_eq_notSpecified_iff r2).2 hc
          rw [← h] at this
          exact h1 ((toString_eq_notSpecified_iff r).1 this)
        have h4 : r2.value ≠ -2 := by
          intro hc
          have := (toString_eq_moreThan0_iff r2).2 hc
          rw [← h] at this
          exact h2 ((toString_eq_moreThan0_iff r).1 this)
        rw [toString_of_count r h1 h2, toString_of_count r2 h3 h4] at h
        exact to_string_injective h
  cases r
  cases r2
  simp only [NodesNum.mk.injEq]
  exact hval

/-! ## Theorems on cardinalities and on the cardinality error -/

/-- C17: for every value `x`, in particular every 32-bit one, `NodesNum(x).isCertain()` is
true exactly when `x >= 0`; it is false for the sentinels `NOT_SPECIFIED` (-1) and
`MORE_THAN_0` (-2). -/
theorem isCertain_iff (x : Int) :
    (NodesNum.isCertain ⟨x⟩ = true ↔ 0 ≤ x) ∧
    NodesNum.isCertain ⟨NodesNum.NOT_SPECIFIED⟩ = false ∧
    NodesNum.isCertain ⟨NodesNum.MORE_THAN_0⟩ = false := by
  refine ⟨?_, by decide, by decide⟩
  unfold NodesNum.isCertain
  simp

/-- C18: `NodesNum(x).toString()` is `not specified` when `x = NOT_SPECIFIED`, `more than 0`
when `x = MORE_THAN_0`, and the decimal rendering of `x` for every other `x`; the three cases
do not overlap: the sentinels differ, and the decimal rendering of another `x` is neither of
the two texts. -/
theorem NodesNum_toString_cases (x : Int) :
    (x = NodesNum.NOT_SPECIFIED → NodesNum.toString ⟨x⟩ = "not specified".toList) ∧
    (x = NodesNum.MORE_THAN_0 → NodesNum.toString ⟨x⟩ = "more than 0".toList) ∧
    (x ≠ NodesNum.NOT_SPECIFIED → x ≠ NodesNum.MORE_THAN_0 →
      NodesNum.toString ⟨x⟩ = to_string x ∧
      to_string x = (if x < 0 then '-' :: decimal x.natAbs else decimal x.toNat) ∧
      to_string x ≠ "not specified".toList ∧ to_string x ≠ "more than 0".toList) ∧
    NodesNum.NOT_SPECIFIED ≠ NodesNum.MORE_THAN_0 ∧
    (NodesNum.toString ⟨x⟩ = "not specified".toList ↔ x = NodesNum.NOT_SPECIFIED) ∧
    (NodesNum.toString ⟨x⟩ = "more than 0".toList ↔ x = NodesNum.MORE_THAN_0) := by
  refine ⟨?_, ?_, ?_, by decide, toString_eq_notSpecified_iff ⟨x⟩,
    toString_eq_moreThan0_iff ⟨x⟩⟩
  · intro h
    exact (toString_eq_notSpecified_iff ⟨x⟩).2 h
  · intro h
    exact (toString_eq_moreThan0_iff ⟨x⟩).2 h
  · intro h1 h2
    have h3 := toString_of_count ⟨x⟩ h1 h2
    refine ⟨h3, rfl, ?_, ?_⟩
    · intro hc
      exact h1 ((toString_eq_notSpecified_iff ⟨x⟩).1 (h3.trans hc))
    · intro hc
      exact h2 ((toString_eq_moreThan0_iff ⟨x⟩).1 (h3.trans hc))

/-- Witness of C18 at the exact count 12, rendered as the text `12`. -/
theorem NodesNum_toString_cases_witness :
    NodesNum.toString ⟨12⟩ = ['1', '2'] := by
  rw [((NodesNum_toString_cases 12).2.2.1 (by decide) (by decide)).1]
  simp [to_string, decimal, digitChar]

theorem message_injective {n1 n2 : List Char} {r1 r2 : NodesNum} {k1 k2 : Int}
    (h : WrongChildsNumException n1 r1 k1 = WrongChildsNumException n2 r2 k2) :
    WrongChildsNumException.message n1 r1 k1 = WrongChildsNumException.message n2 r2 k2 := by
  unfold WrongChildsNumException at h
  injection h with h
  injection h

/-- C19: the message of `WrongChildsNumException(name, r, k)` is exactly
`"Invalid number of childs in node " + name + ". Required: " + r.toString() + ", present: "`
followed by the decimal rendering of `k`; the error carries the field name, the required
cardinality and the actual count, each of which is determined by the message once the other
two are known. At the field `childs` with the required counts 2, `MORE_THAN_0` and
`NOT_SPECIFIED` the texts are as shown. -/
theorem wrongChildsNum_what (name : List Char) (r : NodesNum) (k : Int) :
    WrongChildsNumException name r k =
      Exception.WrongChildsNumException (String.mk
        ("Invalid number of childs in node ".toList ++ name ++ ". Required: ".toList ++
          r.toString ++ ", present: ".toList ++
          (if k < 0 then '-' :: decimal k.natAbs else decimal k.toNat))) ∧
    (∀ name2, WrongChildsNumException name2 r k = WrongChildsNumException name r k →
      name2 = name) ∧
    (∀ r2, WrongChildsNumException name r2 k = WrongChildsNumException name r k → r2 = r) ∧
    (∀ k2, WrongChildsNumException name r k2 = WrongChildsNumException name r k → k2 = k) ∧
    WrongChildsNumException "childs".toList ⟨2⟩ 3 = Exception.WrongChildsNumException
      "Invalid number of childs in node childs. Required: 2, present: 3" ∧
    WrongChildsNumException "childs".toList ⟨NodesNum.MORE_THAN_0⟩ 0 =
      Exception.WrongChildsNumException
        "Invalid number of childs in node childs. Required: more than 0, present: 0" ∧
    WrongChildsNumException "childs".toList ⟨NodesNum.NOT_SPECIFIED⟩ 10 =
      Exception.WrongChildsNumException
        "Invalid number of childs in node childs. Required: not specified, present: 10" := by
  refine ⟨rfl, ?_, ?_, ?_, ?_, ?_, ?_⟩
  · intro name2 h
    have h2 := message_injective h
    unfold WrongChildsNumException.message at h2
    simp only [List.append_assoc, List.append_cancel_left_eq] at h2
    exact List.append_cancel_right h2
  · intro r2 h
    have h2 := message_injective h
    unfold WrongChildsNumException.message at h2
    simp only [List.append_assoc, List.append_cancel_left_eq] at h2
    exact NodesNum_toString_injective (List.append_cancel_right h2)
  · intro k2 h
    have h2 := message_injective h
    unfold WrongChildsNumException.message at h2
    simp only [List.append_assoc, List.append_cancel_left_eq] at h2
    exact to_string_injective h2
  · simp [WrongChildsNumException, WrongChildsNumException.message, NodesNum.toString,
      NodesNum.NOT_SPECIFIED, NodesNum.MORE_THAN_0, to_string, decimal, digitChar]
  · simp [WrongChildsNumException, WrongChildsNumException.message, NodesNum.toString,
      NodesNum.NOT_SPECIFIED, NodesNum.MORE_THAN_0, to_string, decimal, digitChar]
  · simp [WrongChildsNumException, WrongChildsNumException.message, NodesNum.toString,
      NodesNum.NOT_SPECIFIED, NodesNum.MORE_THAN_0, to_string, decimal, digitChar]

/-! ## Theorems on the construction and assignment of a field -/

/-- C20: a newly constructed field descriptor has validity false; and assigning a value `v`
to any field through `Node::operator=` leaves the field with validity true and with `v` as its
stored value, the name, the cardinality and the leaf flag being kept. -/
theorem ctor_invalid_assign_valid {V : Type} :
    (∀ (name : String) (requiredNum : Int) (isLeaf : Bool) (value : V),
      (BasicNodeData.ctor name requiredNum isLeaf value).validity = false) ∧
    (∀ (field : BasicNodeData V) (v : V),
      (Node.operatorAssign field v).validity = true ∧
      (Node.operatorAssign field v).value = v ∧
      (Node.operatorAssign field v).name = field.name ∧
      (Node.operatorAssign field v).requiredNum = field.requiredNum ∧
      (Node.operatorAssign field v).isLeaf = field.isLeaf) :=
  ⟨fun _ _ _ _ => rfl, fun _ _ => ⟨rfl, rfl, rfl, rfl, rfl⟩⟩

/-! ## Lemmas on the traversals of a record -/

theorem find?_eq_of_first {α : Type} (p : α → Bool) (l : List α) (i : Nat)
    (h : i < l.length) (hp : p l[i] = true)
    (hfirst : ∀ j (hj : j < i), p (l[j]) = false) : l.find? p = some l[i] := by
  induction l generalizing i with
  | nil => exact absurd h (Nat.not_lt_zero _)
  | cons a t ih =>
    cases i with
    | zero =>
      simp only [List.getElem_cons_zero] at hp
      simp [List.find?, hp]
    | succ i =>
      have h0 : p a = false := hfirst 0 (Nat.succ_pos _)
      simp only [List.find?_cons, h0, List.getElem_cons_succ]
      exact ih i (Nat.lt_of_succ_lt_succ h) hp
        (fun j hj => hfirst (j + 1) (Nat.succ_lt_succ hj))

theorem parseNodes_first_failure {V : Type}
    (parseNode : BasicNodeData V → Ptree → BasicNodeData V × Option Exception)
    (tree : Ptree) (e : Exception) (l : List (BasicNodeData V)) (j : Nat) (hj : j < l.length)
    (hbefore : ∀ i (h : i < j), (parseNode (l[i]) tree).2 = none)
    (hfail : (parseNode l[j] tree).2 = some e) :
    BasicTree.parseNodes parseNode tree l =
      ((l.take j).map (fun node => (parseNode node tree).1) ++
        (parseNode l[j] tree).1 :: l.drop (j + 1), some e) := by
  induction l generalizing j with
  | nil => exact absurd hj (Nat.not_lt_zero _)
  | cons a t ih =>
    cases j with
    | zero =>
      simp only [List.getElem_cons_zero] at hfail
      unfold BasicTree.parseNodes
      cases hpa : parseNode a tree with
      | mk parsed thrown =>
        rw [hpa] at hfail
        simp only at hfail
        subst hfail
        simp [hpa]
    | succ j =>
      have h0 : (parseNode a tree).2 = none := hbefore 0 (Nat.succ_pos _)
      have hrec := ih j (Nat.lt_of_succ_lt_succ hj)
        (fun i h => hbefore (i + 1) (Nat.succ_lt_succ h)) hfail
      unfold BasicTree.parseNodes
      cases hpa : parseNode a tree with
      | mk parsed thrown =>
        rw [hpa] at h0
        simp only at h0
        subst h0
        simp [hrec, hpa]

/-! ## Theorems on the traversals of a record -/

/-- C12: `BasicTree::getSameNode(probe)` returns the field with the smallest index whose
concrete type is that of the probe, and it raises an error, `Cannot find same field`,
exactly when no field of the record has that type. -/
theorem getSameNode_first {V T : Type} [DecidableEq T] (typeid : BasicNodeData V → T)
    (r : BasicTree V) (probe : BasicNodeData V) :
    (∀ i (h : i < r.nodes.length), typeid r.nodes[i] = typeid probe →
      (∀ j (hj : j < i), typeid (r.nodes[j]) ≠ typeid probe) →
      r.getSameNode typeid probe = Except.ok r.nodes[i]) ∧
    ((∃ e, r.getSameNode typeid probe = Except.error e) ↔
      ∀ node ∈ r.nodes, typeid node ≠ typeid probe) ∧
    (∀ e, r.getSameNode typeid probe = Except.error e →
      e = Exception.runtime_error "Cannot find same field") := by
  unfold BasicTree.getSameNode
  refine ⟨?_, ?_, ?_⟩
  · intro i h hi hfirst
    rw [find?_eq_of_first _ r.nodes i h (by simpa using hi)
      (fun j hj => by simpa using hfirst j hj)]
  · cases hfind : r.nodes.find? (fun node => typeid node == typeid probe) with
    | none =>
      simp only [Except.error.injEq, exists_eq', true_iff]
      intro node hnode
      have := List.find?_eq_none.1 hfind node hnode
      simpa using this
    | some node =>
      have hp := List.find?_some hfind
      have hmem := List.mem_of_find?_eq_some hfind
      simp only [reduceCtorEq, exists_false, false_iff, not_forall]
      exact ⟨node, hmem, by simpa using hp⟩
  · intro e he
    cases hfind : r.nodes.find? (fun node => typeid node == typeid probe) with
    | none =>
      rw [hfind] at he
      injection he with he
      exact he.symm
    | some node =>
      rw [hfind] at he
      cases he

/-- Witness of C12: in `sampleMixed`, taking the name of a field for its concrete type, the
probe `opt` finds the field of index 1. -/
theorem getSameNode_first_witness :
    sampleMixed.getSameNode (fun node => node.name) ⟨"opt", ⟨0⟩, false, true, 0⟩ =
      Except.ok ⟨"opt", ⟨NodesNum.NOT_SPECIFIED⟩, true, true, 8⟩ :=
  (getSameNode_first (fun node => node.name) sampleMixed ⟨"opt", ⟨0⟩, false, true, 0⟩).1 1
    (by decide) (by decide)
    (fun j hj => by
      have h0 : j = 0 := by omega
      subst h0
      simp [sampleMixed])

/-- C13: `BasicTree::parsePtree` parses the fields in declaration order and stops at the
first error. When `t` is the tree the fields are parsed against and field `j` is the first
whose parse raises an error `e`, the call raises that same `e`; the fields of index below `j`
are in the state their parse produced, field `j` is as its failed parse left it, and the
fields of index above `j` are in their previous state. -/
theorem parsePtree_fail_fast {V : Type}
    (parseNode : BasicNodeData V → Ptree → BasicNodeData V × Option Exception)
    (r : BasicTree V) (tree t : Ptree) (isRoot : Bool) (j : Nat) (e : Exception)
    (hroot : BasicTree.parsePtreeRoot tree isRoot = some t)
    (hj : j < r.nodes.length)
    (hbefore : ∀ i (h : i < j), (parseNode (r.nodes[i]) t).2 = none)
    (hfail : (parseNode r.nodes[j] t).2 = some e) :
    r.parsePtree parseNode tree isRoot = some
      { tree := t
        record := { r with nodes :=
          (r.nodes.take j).map (fun node => (parseNode node t).1) ++
            (parseNode r.nodes[j] t).1 :: r.nodes.drop (j + 1) }
        thrown := some e } := by
  unfold BasicTree.parsePtree
  rw [hroot, Option.map_some', parseNodes_first_failure parseNode t e r.nodes j hj hbefore hfail]

/-- Witness of C13: in `sampleDocument` the text of `b` is not a number, so the parse of
`sampleFresh` raises the conversion error of field 1; field 0 holds the parsed 5 and is valid,
fields 1 and 2 are as constructed. -/
theorem parsePtree_fail_fast_witness :
    sampleFresh.parsePtree sampleParseNode sampleDocument true = some
      { tree := sampleElement
        record := { name := "Fresh"
                    nodes := [⟨"a", ⟨1⟩, true, true, 5⟩, BasicNodeData.ctor "b" 1 true 0,
                              BasicNodeData.ctor "c" 1 true 0] }
        thrown := some (Exception.out_of_range "") } :=
  parsePtree_fail_fast sampleParseNode sampleFresh sampleDocument sampleElement true 1
    (Exception.out_of_range "") rfl (by decide)
    (fun i h => by
      have h0 : i = 0 := by omega
      subst h0
      rfl)
    rfl

/-! ## Lemmas on the copy of leaves -/

theorem copyLeafsLoop_append {V : Type}
    (copy : BasicNodeData V → BasicNodeData V → Except Exception (BasicNodeData V))
    (rhs : BasicTree V) (l1 l2 : List Nat) (start mid : BasicTree V)
    (h : BasicTree.copyLeafsLoop copy rhs l1 start = some (Except.ok mid)) :
    BasicTree.copyLeafsLoop copy rhs (l1 ++ l2) start =
      BasicTree.copyLeafsLoop copy rhs l2 mid := by
  induction l1 generalizing start with
  | nil =>
    simp only [BasicTree.copyLeafsLoop, Option.some.injEq, Except.ok.injEq] at h
    subst h
    rfl
  | cons i rest ih =>
    simp only [List.cons_append, BasicTree.copyLeafsLoop] at h ⊢
    cases hstep : BasicTree.copyLeafsStep copy rhs start i with
    | none => rw [hstep] at h; cases h
    | some res =>
      cases res with
      | error e => rw [hstep] at h; cases h
      | ok next =>
        rw [hstep] at h
        exact ih next h

theorem copyLeafs_invariant {V : Type}
    (copy : BasicNodeData V → BasicNodeData V → Except Exception (BasicNodeData V))
    (dst src : BasicTree V)
    (hcopy : ∀ (i : Nat) d sr, dst.nodes[i]? = some d → src.nodes[i]? = some sr → sr.isLeaf = true →
      ∃ c, copy d sr = Except.ok c)
    (n : Nat) (hn1 : n ≤ dst.nodes.length) (hn2 : n ≤ src.nodes.length) :
    ∃ out, BasicTree.copyLeafsLoop copy src (List.range n) dst = some (Except.ok out) ∧
      out.name = dst.name ∧ out.nodes.length = dst.nodes.length ∧
      (∀ i : Nat, n ≤ i → out.nodes[i]? = dst.nodes[i]?) ∧
      (∀ (i : Nat) d sr, i < n → dst.nodes[i]? = some d → src.nodes[i]? = some sr →
        (sr.isLeaf = true → ∃ c, copy d sr = Except.ok c ∧ out.nodes[i]? = some c) ∧
        (sr.isLeaf = false → out.nodes[i]? = some d)) := by
  induction n with
  | zero =>
    refine ⟨dst, rfl, rfl, rfl, fun _ _ => rfl, ?_⟩
    intro i d sr hi
    exact absurd hi (Nat.not_lt_zero _)
  | succ n ih =>
    obtain ⟨mid, hloop, hname, hlen, hrest, hdone⟩ := ih (by omega) (by omega)
    have hd : dst.nodes[n]? = some dst.nodes[n] := List.getElem?_eq_getElem (by omega)
    have hs : src.nodes[n]? = some src.nodes[n] := List.getElem?_eq_getElem (by omega)
    have hm : mid.nodes[n]? = some dst.nodes[n] := by rw [hrest n le_rfl, hd]
    rw [List.range_succ, copyLeafsLoop_append copy src _ _ dst mid hloop]
    by_cases hleaf : (src.nodes[n]).isLeaf = true
    · obtain ⟨c, hc⟩ := hcopy n _ _ hd hs hleaf
      refine ⟨{ mid with nodes := mid.nodes.set n c }, ?_, hname, ?_, ?_, ?_⟩
      · simp [BasicTree.copyLeafsLoop, BasicTree.copyLeafsStep, BasicTree.operatorIndex, hs,
          hm, hleaf, hc]
      · simp only [List.length_set, hlen]
      · intro i hi
        simp only
        rw [List.getElem?_set_ne (by omega)]
        exact hrest i (by omega)
      · intro i d sr hi hdi hsi
        simp only
        rcases Nat.lt_succ_iff_lt_or_eq.1 hi with hlt | heq
        · rw [List.getElem?_set_ne (by omega)]
          exact hdone i d sr hlt hdi hsi
        · subst heq
          rw [hd] at hdi
          rw [hs] at hsi
          injection hdi with hdi
          injection hsi with hsi
          subst hdi hsi
          constructor
          · intro _
            exact ⟨c, hc, List.getElem?_set_self (by omega)⟩
          · intro hno
            rw [hleaf] at hno
            cases hno
    · refine ⟨mid, ?_, hname, hlen, ?_, ?_⟩
      · simp [BasicTree.copyLeafsLoop, BasicTree.copyLeafsStep, BasicTree.operatorIndex, hs,
          hleaf]
      · intro i hi
        exact hrest i (by omega)
      · intro i d sr hi hdi hsi
        rcases Nat.lt_succ_iff_lt_or_eq.1 hi with hlt | heq
        · exact hdone i d sr hlt hdi hsi
        · subst heq
          rw [hd] at hdi
          rw [hs] at hsi
          injection hdi with hdi
          injection hsi with hsi
          subst hdi hsi
          constructor
          · intro hyes
            exact absurd hyes hleaf
          · intro _
            exact hm

/-! ## Theorem on the copy of leaves -/

/-- C11: for two records `dst` and `src` of the same record type (as many fields, the same
leaf flags position by position, and a field copy that, between fields of the same position,
succeeds and copies value and validity), `dst.copyLeafs(src)` returns, every leaf field of
`dst` then holds the value and the validity of the field of `src` at the same index, and every
composite field of `dst` is as it was before the call. -/
theorem copyLeafs_spec {V : Type}
    (copy : BasicNodeData V → BasicNodeData V → Except Exception (BasicNodeData V))
    (dst src : BasicTree V) (hlen : dst.nodesNum = src.nodesNum)
    (htype : ∀ (i : Nat) d sr, dst.nodes[i]? = some d → src.nodes[i]? = some sr →
      d.isLeaf = sr.isLeaf)
    (hcopy : ∀ (i : Nat) d sr, dst.nodes[i]? = some d → src.nodes[i]? = some sr →
      ∃ c, copy d sr = Except.ok c ∧ c.value = sr.value ∧ c.validity = sr.validity) :
    ∃ out, dst.copyLeafs copy src = some (Except.ok out) ∧
      out.nodes.length = dst.nodes.length ∧
      ∀ (i : Nat) d sr, dst.nodes[i]? = some d → src.nodes[i]? = some sr →
        (d.isLeaf = true →
          ∃ c, out.nodes[i]? = some c ∧ c.value = sr.value ∧ c.validity = sr.validity) ∧
        (d.isLeaf = false → out.nodes[i]? = some d) := by
  have hlen2 : dst.nodes.length = src.nodes.length := hlen
  obtain ⟨out, hloop, _, hlength, _, hdone⟩ :=
    copyLeafs_invariant copy dst src
      (fun i d sr hd hs _ => (hcopy i d sr hd hs).imp (fun _ h => h.1))
      dst.nodes.length le_rfl (by omega)
  refine ⟨out, hloop, hlength, ?_⟩
  intro i d sr hd hs
  have hi : i < dst.nodes.length := (List.getElem?_eq_some.1 hd).1
  have hboth := hdone i d sr hi hd hs
  have hsame := htype i d sr hd hs
  constructor
  · intro hleaf
    obtain ⟨c, hc, hout⟩ := hboth.1 (by rw [← hsame]; exact hleaf)
    obtain ⟨c2, hc2, hvalue, hvalidity⟩ := hcopy i d sr hd hs
    rw [hc] at hc2
    injection hc2 with hc2
    subst hc2
    exact ⟨c, hout, hvalue, hvalidity⟩
  · intro hleaf
    exact hboth.2 (by rw [← hsame]; exact hleaf)

/-- Witness of C11: copying the leaves of the fully valid `sampleSource` into
`sampleMixedUnset` overwrites value and validity of the leaves `id` and `opt` and leaves the
unset composite field `childs` with its value 9; the field copy is the one of the
specification, the name of a field standing for its concrete type. -/
theorem copyLeafs_spec_witness :
    sampleMixedUnset.copyLeafs (NodeData.copy (fun node => node.name)) sampleSource =
      some (Except.ok
        { name := "Mixed"
          nodes := [⟨"id", ⟨2⟩, true, true, 70⟩,
                    ⟨"opt", ⟨NodesNum.NOT_SPECIFIED⟩, true, true, 80⟩,
                    ⟨"childs", ⟨NodesNum.MORE_THAN_0⟩, false, false, 9⟩] }) ∧
    ∃ out, sampleMixedUnset.copyLeafs (NodeData.copy (fun node => node.name)) sampleSource =
        some (Except.ok out) ∧
      out.nodes.length = sampleMixedUnset.nodes.length ∧
      ∀ (i : Nat) d sr, sampleMixedUnset.nodes[i]? = some d →
        sampleSource.nodes[i]? = some sr →
        (d.isLeaf = true →
          ∃ c, out.nodes[i]? = some c ∧ c.value = sr.value ∧ c.validity = sr.validity) ∧
        (d.isLeaf = false → out.nodes[i]? = some d) :=
  ⟨rfl,
    copyLeafs_spec (NodeData.copy (fun node => node.name)) sampleMixedUnset sampleSource rfl
      (fun i d sr hd hs => by
        match i, hd, hs with
        | 0, hd, hs => cases hd; cases hs; rfl
        | 1, hd, hs => cases hd; cases hs; rfl
        | 2, hd, hs => cases hd; cases hs; rfl
        | n + 3, hd, _ => cases hd)
      (fun i d sr hd hs => by
        match i, hd, hs with
        | 0, hd, hs => cases hd; cases hs; exact ⟨_, rfl, rfl, rfl⟩
        | 1, hd, hs => cases hd; cases hs; exact ⟨_, rfl, rfl, rfl⟩
        | 2, hd, hs => cases hd; cases hs; exact ⟨_, rfl, rfl, rfl⟩
        | n + 3, hd, _ => cases hd)⟩

/-! ## Theorems on the parse of one field -/

/-- C14, as stated, fails: an integer leaf required exactly once finds exactly one node, whose
text `x` is not a number; the count is the required one, yet parsing the field does not
succeed: an error is raised and the field stays unset. -/
theorem exact_count_conversion_fails :
    (1 : Int) = (([['x']] : List (List Char)).length : Int) ∧
    (NodeData.parsePtree bindInteger ⟨"IntegerAttrName", ⟨1⟩, false, true, 0⟩ [['x']]).2 ≠ none ∧
    (NodeData.parsePtree bindInteger ⟨"IntegerAttrName", ⟨1⟩, false, true, 0⟩
      [['x']]).1.validity = false := by
  refine ⟨rfl, ?_, rfl⟩
  intro h
  cases h

/-- C14, amended: for a field whose required cardinality is an exact count `N >= 0` and a tree
position with `k` nodes matching the name of the field, parsing the field fails, if `k != N`,
with the cardinality error of the field, whose text carries `N` as required and `k` as
present, the field being untouched; if `k = N` no cardinality error is raised for the field:
the parse succeeds, setting validity and value, when the binding of the found nodes succeeds,
and raises the error of the binding when it fails. -/
theorem exact_count_parse {V M : Type} (bind : List M → Except Exception V)
    (field : BasicNodeData V) (found : List M) (N : Int) (hN : 0 ≤ N)
    (hreq : field.requiredNum.value = N) :
    ((found.length : Int) ≠ N →
      NodeData.parsePtree bind field found =
        (field, some (WrongChildsNumException field.name.toList ⟨N⟩ found.length)) ∧
      WrongChildsNumException field.name.toList ⟨N⟩ found.length =
        Exception.WrongChildsNumException (String.mk
          ("Invalid number of childs in node ".toList ++ field.name.toList ++
            ". Required: ".toList ++ to_string N ++ ", present: ".toList ++
            to_string found.length))) ∧
    ((found.length : Int) = N →
      (∀ v, bind found = Except.ok v →
        NodeData.parsePtree bind field found =
          ({ field with validity := true, value := v }, none)) ∧
      (∀ e, bind found = Except.error e →
        NodeData.parsePtree bind field found = (field, some e))) := by
  have hcertain : field.requiredNum.isCertain = true := by
    unfold NodesNum.isCertain
    rw [hreq]
    exact decide_eq_true hN
  have hfield : field.requiredNum = ⟨N⟩ := by
    cases hr : field.requiredNum with
    | mk value =>
      rw [hr] at hreq
      simp only at hreq
      rw [hreq]
  constructor
  · intro hne
    constructor
    · rw [hfield] at hcertain
      unfold NodeData.parsePtree
      rw [hfield]
      simp [hcertain, hne]
    · unfold WrongChildsNumException WrongChildsNumException.message
      rw [toString_of_count ⟨N⟩ (by simp only; omega) (by simp only; omega)]
  · intro heq
    have h1 : ¬ ((found.length : Int) ≠ N) := by simp [heq]
    have h2 : ¬ (N = NodesNum.MORE_THAN_0) := by unfold NodesNum.MORE_THAN_0; omega
    have h3 : ¬ (N = NodesNum.NOT_SPECIFIED) := by unfold NodesNum.NOT_SPECIFIED; omega
    constructor
    · intro v hv
      unfold NodeData.parsePtree
      simp [hcertain, hreq, heq, h2, h3, hv]
    · intro e he
      unfold NodeData.parsePtree
      simp [hcertain, hreq, heq, h2, h3, he]

/-- Witness of the amended C14: a field `childs` required exactly twice finds three nodes, and
the parse raises the cardinality error with required 2 and present 3. -/
theorem exact_count_parse_witness :
    NodeData.parsePtree bindInteger ⟨"childs", ⟨2⟩, false, true, 0⟩ [['1'], ['2'], ['3']] =
      (⟨"childs", ⟨2⟩, false, true, 0⟩, some (Exception.WrongChildsNumException
        "Invalid number of childs in node childs. Required: 2, present: 3")) := by
  have h := (exact_count_parse bindInteger ⟨"childs", ⟨2⟩, false, true, 0⟩
    [['1'], ['2'], ['3']] 2 (by decide) rfl).1 (by decide)
  rw [h.1, h.2]
  simp [to_string, decimal, digitChar]

/-- C15: for a field, in particular a leaf field, whose cardinality is optional
(`NOT_SPECIFIED`) and a tree position with no node matching the name of the field, the parse
raises no error and does not touch the field: a validity that was false, as it is after
construction or reset, is false after the parse. -/
theorem optional_leaf_no_match {V M : Type} (bind : List M → Except Exception V)
    (field : BasicNodeData V)
    (hopt : field.requiredNum.value = NodesNum.NOT_SPECIFIED)
    (hunset : field.validity = false) :
    (NodeData.parsePtree bind field []).2 = none ∧
    (NodeData.parsePtree bind field []).1 = field ∧
    (NodeData.parsePtree bind field []).1.validity = false := by
  have hp : NodeData.parsePtree bind field [] = (field, none) := by
    unfold NodeData.parsePtree
    simp [hopt, NodesNum.isCertain, NodesNum.NOT_SPECIFIED, NodesNum.MORE_THAN_0]
  rw [hp]
  exact ⟨rfl, rfl, hunset⟩

/-- Witness of C15: the optional leaf `EnumAttrName`, as constructed, parsed where no node has
its name. -/
theorem optional_leaf_no_match_witness :
    (NodeData.parsePtree bindInteger
      (BasicNodeData.ctor "EnumAttrName" NodesNum.NOT_SPECIFIED true 0) []).2 = none ∧
    (NodeData.parsePtree bindInteger
      (BasicNodeData.ctor "EnumAttrName" NodesNum.NOT_SPECIFIED true 0) []).1 =
      BasicNodeData.ctor "EnumAttrName" NodesNum.NOT_SPECIFIED true 0 ∧
    (NodeData.parsePtree bindInteger
      (BasicNodeData.ctor "EnumAttrName" NodesNum.NOT_SPECIFIED true 0) []).1.validity = false :=
  optional_leaf_no_match bindInteger
    (BasicNodeData.ctor "EnumAttrName" NodesNum.NOT_SPECIFIED true 0) rfl rfl

/-! ## Theorem on the stored type of a field -/

/-- C21: for a declared field `Node<Name, DataType, RequiredNum>` the stored value type is
`SubtreesSet<DataType>` exactly when `DataType` derives from `BasicTree` and
`RequiredNum != 1`, and is `DataType` itself otherwise; a record-typed field required exactly
once is a single nested record, and a field whose type is not a record is never wrapped. The
base class `NodeData<...>` of the field has the same type argument. -/
theorem deducedDataType_cases (dataType : DataType) (RequiredNum : Int) :
    (Node.DeducedDataType dataType RequiredNum = StoredType.SubtreesSet dataType ↔
      (dataType.is_base_of_BasicTree = true ∧ RequiredNum ≠ 1)) ∧
    (Node.DeducedDataType dataType RequiredNum = StoredType.plain dataType ↔
      ¬ (dataType.is_base_of_BasicTree = true ∧ RequiredNum ≠ 1)) ∧
    (dataType.is_base_of_BasicTree = true →
      Node.DeducedDataType dataType 1 = StoredType.plain dataType) ∧
    (dataType.is_base_of_BasicTree = false →
      Node.DeducedDataType dataType RequiredNum = StoredType.plain dataType) ∧
    Node.BaseDataType dataType RequiredNum = Node.DeducedDataType dataType RequiredNum := by
  unfold Node.BaseDataType Node.DeducedDataType
  by_cases hrec : dataType.is_base_of_BasicTree = true <;>
    by_cases hnum : RequiredNum = 1 <;> simp [hrec, hnum]

/-- Witness of C21: a field of the record type `NestedXmlElement` required exactly once stores
a single `NestedXmlElement`; the integer field `int` required twice stores an `int`. -/
theorem deducedDataType_cases_witness :
    Node.DeducedDataType ⟨"NestedXmlElement", true⟩ 1 =
      StoredType.plain ⟨"NestedXmlElement", true⟩ ∧
    Node.DeducedDataType ⟨"int", false⟩ 2 = StoredType.plain ⟨"int", false⟩ :=
  ⟨(deducedDataType_cases ⟨"NestedXmlElement", true⟩ 1).2.2.1 rfl,
    (deducedDataType_cases ⟨"int", false⟩ 2).2.2.2.1 rfl⟩

/-! ## Theorem on the field directory -/

theorem iterate_operatorInc_ptr (s : Sizes) (start : NodeIterator) (k : Nat) :
    ((NodeIterator.operatorInc s)^[k] start).ptr =
      start.ptr + (k : Int) * (Details.NodeDataSize s : Int) := by
  induction k with
  | zero => simp
  | succ k ih =>
    rw [Function.iterate_succ_apply']
    simp only [NodeIterator.operatorInc, NodeIterator.operatorPlus, ih]
    push_cast
    ring

theorem toInt_of_le (i : Nat) (h : i ≤ INT_MAX) : toInt i = i := by
  unfold toInt
  unfold INT_MAX at h
  omega

/-- C22: for a record with `n` fields (`n` within the range of `int`, the type of the index of
`operator+`) the field directory has the uniform stride
`NodeDataSize = sizeof(BasicNodeData) + sizeof(void*)`: `begin()` addresses the byte right
after the record header, `operator[](i)` addresses `begin() + i * NodeDataSize` for every
`i < n`, which is where field `i` lies, `end()` addresses `begin() + n * NodeDataSize`, and an
iterator incremented `k` times from `begin()` is equal to `end()` exactly when `k = n`, being
at step `k < n` the iterator of `operator[](k)`: the fields are visited in declaration
order. -/
theorem field_directory_stride (s : Sizes) (this : Int) (n : Nat)
    (hsize : 0 < s.sizeofBasicNodeData) (hn : n ≤ INT_MAX) :
    Details.NodeDataSize s = s.sizeofBasicNodeData + s.sizeofVoidPtr ∧
    (BasicTree.begin s this).ptr = this + (s.sizeofBasicTree : Int) ∧
    (∀ i, i < n →
      (BasicTree.operatorIndexIterator s this i).ptr =
        (BasicTree.begin s this).ptr + (i : Int) * (Details.NodeDataSize s : Int) ∧
      (BasicTree.operatorIndexIterator s this i).ptr = fieldAddress s this i) ∧
    (BasicTree.end s this n).ptr =
      (BasicTree.begin s this).ptr + (n : Int) * (Details.NodeDataSize s : Int) ∧
    (∀ k, NodeIterator.operatorEq ((NodeIterator.operatorInc s)^[k] (BasicTree.begin s this))
      (BasicTree.end s this n) = true ↔ k = n) ∧
    (∀ k, k < n →
      NodeIterator.operatorNe ((NodeIterator.operatorInc s)^[k] (BasicTree.begin s this))
        (BasicTree.end s this n) = true ∧
      (NodeIterator.operatorInc s)^[k] (BasicTree.begin s this) =
        BasicTree.operatorIndexIterator s this k) := by
  have hpos : (0 : Int) < (Details.NodeDataSize s : Int) := by
    unfold Details.NodeDataSize
    push_cast
    omega
  have hend : (BasicTree.end s this n).ptr =
      (BasicTree.begin s this).ptr + (n : Int) * (Details.NodeDataSize s : Int) := by
    unfold BasicTree.end
    push_cast
    rfl
  have hat : ∀ i, i < n → (BasicTree.operatorIndexIterator s this i).ptr =
      (BasicTree.begin s this).ptr + (i : Int) * (Details.NodeDataSize s : Int) := by
    intro i hi
    unfold BasicTree.operatorIndexIterator NodeIterator.operatorPlus
    rw [toInt_of_le i (by omega)]
    simp only
    ring
  have heq : ∀ k, NodeIterator.operatorEq
      ((NodeIterator.operatorInc s)^[k] (BasicTree.begin s this))
      (BasicTree.end s this n) = true ↔ k = n := by
    intro k
    unfold NodeIterator.operatorEq
    rw [beq_iff_eq, iterate_operatorInc_ptr, hend]
    constructor
    · intro h
      have h2 : (k : Int) * (Details.NodeDataSize s : Int) =
          (n : Int) * (Details.NodeDataSize s : Int) := by linarith
      have h3 := mul_right_cancel₀ (ne_of_gt hpos) h2
      exact_mod_cast h3
    · intro h
      rw [h]
  refine ⟨rfl, rfl, ?_, hend, heq, ?_⟩
  · intro i hi
    refine ⟨hat i hi, ?_⟩
    rw [hat i hi]
    unfold BasicTree.begin fieldAddress Details.NodeDataSize
    push_cast
    ring
  · intro k hk
    constructor
    · unfold NodeIterator.operatorNe
      cases hb : NodeIterator.operatorEq
        ((NodeIterator.operatorInc s)^[k] (BasicTree.begin s this)) (BasicTree.end s this n) with
      | false => rfl
      | true =>
        have := (heq k).1 hb
        omega
    · have h1 := iterate_operatorInc_ptr s (BasicTree.begin s this) k
      have h2 := hat k hk
      cases hit : (NodeIterator.operatorInc s)^[k] (BasicTree.begin s this) with
      | mk p =>
        cases hix : BasicTree.operatorIndexIterator s this k with
        | mk q =>
          rw [hit] at h1
          rw [hix] at h2
          simp only at h1 h2
          rw [h1, h2]

/-- Witness of C22: a record of three fields at address 4096, with a header of 24 bytes and a
stride of 24 + 8 bytes: the fields are at 4120, 4152 and 4184, and `end()` is at 4216. -/
theorem field_directory_stride_witness :
    (BasicTree.operatorIndexIterator ⟨24, 24, 8⟩ 4096 2).ptr = 4184 ∧
    (BasicTree.end ⟨24, 24, 8⟩ 4096 3).ptr = 4216 :=
  ⟨((field_directory_stride ⟨24, 24, 8⟩ 4096 3 (by decide) (by decide)).2.2.1 2
      (by decide)).1.trans (by decide),
    (field_directory_stride ⟨24, 24, 8⟩ 4096 3 (by decide) (by decide)).2.2.2.1.trans
      (by decide)⟩

/-! ## Theorems on the top-level `TreeBinding.cpp` -/

theorem foldl_keep {α β : Type} (l : List α) (init : β) :
    l.foldl (fun result _i => result) init = init := by
  induction l with
  | nil => rfl
  | cons a t ih => exact ih

/-- C29: `BasicTree::operator==` of the top-level `src/TreeBinding.cpp` returns true for every
two records, the body of its loop being commented out. `sampleSource` and `sampleMixed` hold
the different values 70 and 7 in field 0, which is valid in both: the comparison still returns
true, where its documentation says false and where the comparison of
`src/Details/TreeBinding.cpp` returns false. -/
theorem topLevel_operatorEq_true :
    (∀ (V : Type) (a b : BasicTree V), TopLevel.BasicTree.operatorEq a b = true) ∧
    sampleSource.nodes[0]? = some ⟨"id", ⟨2⟩, true, true, 70⟩ ∧
    sampleMixed.nodes[0]? = some ⟨"id", ⟨2⟩, true, true, 7⟩ ∧
    TopLevel.BasicTree.operatorEq sampleSource sampleMixed = true ∧
    BasicTree.operatorEq sampleCompare sampleSource sampleMixed = some false := by
  refine ⟨?_, rfl, rfl, ?_, by decide⟩
  · intro V a b
    exact foldl_keep _ _
  · exact foldl_keep _ _

/-- C30: `BasicTree::isLeafsValid` of the top-level `src/TreeBinding.cpp` returns true for
every record, the body of its loop being commented out. No field of `sampleOptional` is valid:
the predicate still returns true, where its documentation says false and where the predicate
of `src/Details/TreeBinding.cpp` returns false. -/
theorem topLevel_isLeafsValid_true :
    (∀ (V : Type) (r : BasicTree V), TopLevel.BasicTree.isLeafsValid r = true) ∧
    sampleOptional.nodes.all (fun node => !node.validity) = true ∧
    TopLevel.BasicTree.isLeafsValid sampleOptional = true ∧
    sampleOptional.isLeafsValid = false := by
  refine ⟨?_, by decide, ?_, by decide⟩
  · intro V r
    exact foldl_keep _ _
  · exact foldl_keep _ _

/-! ## Theorems on the buffer of the integer rendering -/

theorem decimal_length_le (k n : Nat) (hn : n < 10 ^ (k + 1)) : (decimal n).length ≤ k + 1 := by
  induction k generalizing n with
  | zero =>
    rw [decimal, dif_pos (by simpa using hn)]
    simp
  | succ k ih =>
    rw [decimal]
    split
    · simp
    · have hdiv : n / 10 < 10 ^ (k + 1) := by
        rw [pow_succ] at hn
        exact Nat.div_lt_of_lt_mul (by rw [Nat.mul_comm]; exact hn)
      have := ih (n / 10) hdiv
      simp only [List.length_append, List.length_singleton]
      omega

/-- C31: the text of `LLONG_MIN`, the smallest value of the 64-bit `Integer`, has 20
characters, so `std::sprintf` writes 21 bytes with the terminating NUL, one more than the 20
bytes of `buf`; the same holds at `-1000000000000000000`. For the values that are not
negative the text has at most 19 characters and fits. -/
theorem toString_overflows_buf :
    LLONG_MIN ≤ LLONG_MIN ∧ LLONG_MIN ≤ LLONG_MAX ∧
    Translator.toString LLONG_MIN = "-9223372036854775808".toList ∧
    (Translator.toString LLONG_MIN).length = 20 ∧
    Translator.writtenBytes LLONG_MIN = 21 ∧
    Translator.bufSize < Translator.writtenBytes LLONG_MIN ∧
    Translator.bufSize < Translator.writtenBytes (-1000000000000000000) ∧
    (∀ v : Integer, 0 ≤ v → v ≤ LLONG_MAX →
      (Translator.toString v).length ≤ 19 ∧ Translator.writtenBytes v ≤ Translator.bufSize) := by
  have hmin : sprintf_lld LLONG_MIN = "-9223372036854775808".toList := by
    simp [sprintf_lld, LLONG_MIN, decimal, digitChar]
  have hbig : sprintf_lld (-1000000000000000000) = "-1000000000000000000".toList := by
    simp [sprintf_lld, decimal, digitChar]
  have hnonneg : ∀ v : Integer, 0 ≤ v → v ≤ LLONG_MAX → (sprintf_lld v).length ≤ 19 := by
    intro v h0 hmax
    obtain ⟨n, rfl⟩ := Int.eq_ofNat_of_zero_le h0
    have hn : (n : Int) ≤ 9223372036854775807 := hmax
    unfold sprintf_lld
    rw [if_neg (not_lt.2 h0)]
    apply decimal_length_le 18
    have h10 : (10 : Nat) ^ (18 + 1) = 10000000000000000000 := by norm_num
    rw [h10, Int.toNat_ofNat]
    omega
  refine ⟨le_refl _, by decide, hmin, ?_, ?_, ?_, ?_, ?_⟩
  · unfold Translator.toString
    rw [hmin]
    decide
  · unfold Translator.writtenBytes Translator.sprintfBytes
    rw [hmin]
    decide
  · unfold Translator.writtenBytes Translator.sprintfBytes Translator.bufSize
    rw [hmin]
    decide
  · unfold Translator.writtenBytes Translator.sprintfBytes Translator.bufSize
    rw [hbig]
    decide
  · intro v h0 hmax
    have := hnonneg v h0 hmax
    unfold Translator.toString Translator.writtenBytes Translator.sprintfBytes
      Translator.bufSize
    rw [List.length_append, List.length_singleton]
    exact ⟨this, by omega⟩

/-! ## Theorems on the relations between the record operations -/

/-- C33: for every record `isValid()` implies `isLeafsValid()` and `isLeafsValid()` implies
`isMandatoryLeafsValid()`; for a record with at least one field `isValid()` implies
`containValidNodes()`. -/
theorem validity_implications {V : Type} (r : BasicTree V) :
    (r.isValid = true → r.isLeafsValid = true) ∧
    (r.isLeafsValid = true → r.isMandatoryLeafsValid = true) ∧
    (r.nodes ≠ [] → r.isValid = true → r.containValidNodes = true) := by
  unfold BasicTree.isValid BasicTree.isLeafsValid BasicTree.isMandatoryLeafsValid
    BasicTree.containValidNodes
  refine ⟨?_, ?_, ?_⟩
  · intro h
    rw [List.all_eq_true] at h ⊢
    intro f hf
    simp [h f hf]
  · intro h
    rw [List.all_eq_true] at h ⊢
    intro f hf
    have hf2 := h f hf
    by_cases hleaf : f.isLeaf = true
    · simp only [hleaf, if_true] at hf2
      simp [hf2]
    · simp [hleaf]
  · intro hne h
    rw [List.all_eq_true] at h
    cases hnodes : r.nodes with
    | nil => exact absurd hnodes hne
    | cons f t =>
      have hf := h f (by rw [hnodes]; exact List.mem_cons_self _ _)
      simp [hf]

/-- Witness of C33 at the fully valid `sampleMixed`, which has three fields. -/
theorem validity_implications_witness :
    sampleMixed.isValid = true ∧ sampleMixed.isLeafsValid = true ∧
    sampleMixed.isMandatoryLeafsValid = true ∧ sampleMixed.containValidNodes = true :=
  ⟨by decide, (validity_implications sampleMixed).1 (by decide),
    (validity_implications sampleMixed).2.1 (by decide),
    (validity_implications sampleMixed).2.2 (by decide) (by decide)⟩

theorem parseNodes_all_ok {V : Type}
    (parseNode : BasicNodeData V → Ptree → BasicNodeData V × Option Exception)
    (tree : Ptree) (l : List (BasicNodeData V))
    (hok : ∀ node ∈ l, (parseNode node tree).2 = none) :
    BasicTree.parseNodes parseNode tree l =
      (l.map (fun node => (parseNode node tree).1), none) := by
  induction l with
  | nil => rfl
  | cons a t ih =>
    have h0 : (parseNode a tree).2 = none := hok a (List.mem_cons_self _ _)
    have hrec := ih (fun node hn => hok node (List.mem_cons_of_mem _ hn))
    unfold BasicTree.parseNodes
    cases hpa : parseNode a tree with
    | mk parsed thrown =>
      rw [hpa] at h0
      simp only at h0
      subst h0
      simp [hrec, hpa]

/-- C34: for a tree with at least one child, `BasicTree::parsePtree` called with
`isRoot = true` returns with the tree of the caller overwritten by the subtree of its last
top-level child, the fields having been parsed against that subtree; called with
`isRoot = false` it returns with the tree as it was given, the fields having been parsed
against it. In both cases, when no field raises, every field is in the state its parse against
that tree gives. -/
theorem parsePtree_tree_used {V : Type}
    (parseNode : BasicNodeData V → Ptree → BasicNodeData V × Option Exception)
    (r : BasicTree V) (tree : Ptree) (hne : tree.children ≠ []) :
    (∃ key sub, tree.children.getLast? = some (key, sub) ∧
      r.parsePtree parseNode tree true = some
        { tree := sub
          record := { r with nodes := (BasicTree.parseNodes parseNode sub r.nodes).1 }
          thrown := (BasicTree.parseNodes parseNode sub r.nodes).2 } ∧
      ((∀ node ∈ r.nodes, (parseNode node sub).2 = none) →
        r.parsePtree parseNode tree true = some
          { tree := sub
            record := { r with nodes := r.nodes.map (fun node => (parseNode node sub).1) }
            thrown := none })) ∧
    r.parsePtree parseNode tree false = some
      { tree := tree
        record := { r with nodes := (BasicTree.parseNodes parseNode tree r.nodes).1 }
        thrown := (BasicTree.parseNodes parseNode tree r.nodes).2 } ∧
    ((∀ node ∈ r.nodes, (parseNode node tree).2 = none) →
      r.parsePtree parseNode tree false = some
        { tree := tree
          record := { r with nodes := r.nodes.map (fun node => (parseNode node tree).1) }
          thrown := none }) := by
  have hfalse : r.parsePtree parseNode tree false = some
      { tree := tree
        record := { r with nodes := (BasicTree.parseNodes parseNode tree r.nodes).1 }
        thrown := (BasicTree.parseNodes parseNode tree r.nodes).2 } := by
    unfold BasicTree.parsePtree BasicTree.parsePtreeRoot
    simp
  refine ⟨?_, hfalse, ?_⟩
  · cases hlast : tree.children.getLast? with
    | none =>
      rw [List.getLast?_eq_none_iff] at hlast
      exact absurd hlast hne
    | some child =>
      obtain ⟨key, sub⟩ := child
      have htrue : r.parsePtree parseNode tree true = some
          { tree := sub
            record := { r with nodes := (BasicTree.parseNodes parseNode sub r.nodes).1 }
            thrown := (BasicTree.parseNodes parseNode sub r.nodes).2 } := by
        unfold BasicTree.parsePtree BasicTree.parsePtreeRoot
        simp [hlast]
      refine ⟨key, sub, rfl, htrue, ?_⟩
      intro hok
      rw [htrue, parseNodes_all_ok parseNode sub r.nodes hok]
  · intro hok
    rw [hfalse, parseNodes_all_ok parseNode tree r.nodes hok]

/-- Witness of C34: `sampleDocument` has one child, its root element; parsed as given into
`sampleFresh`, the fields are parsed against the document itself and the tree is unchanged. -/
theorem parsePtree_tree_used_witness :
    sampleDocument.children ≠ [] ∧
    sampleFresh.parsePtree sampleParseNode sampleDocument false = some
      { tree := sampleDocument
        record := { sampleFresh with
          nodes := (BasicTree.parseNodes sampleParseNode sampleDocument sampleFresh.nodes).1 }
        thrown := (BasicTree.parseNodes sampleParseNode sampleDocument sampleFresh.nodes).2 } :=
  ⟨by simp [sampleDocument, Ptree.children],
    (parsePtree_tree_used sampleParseNode sampleFresh sampleDocument
      (by simp [sampleDocument, Ptree.children])).2.1⟩

end TreeBinding

namespace SingleHeaderGenerator

/-! ## Theorems on the insertion into the template -/

/-- C28: with `OUT_FILE_TEMPLATE` and `CONTENT_LINE_INDEX = 8`, for every generated content
`Generator::insertOutFileInTemplate` returns the first 8 lines of the template, then all the
generated lines in order, then the remaining lines of the template; 8 does not exceed the
number of lines of the template, which is 11, and the generated content comes after the line
of the `define` of `_CREOLIZATION_H_` and before the line of its `endif`. -/
theorem insertOutFileInTemplate_spec (outFile : List (List Char)) :
    (Generator.templateOutFile OUT_FILE_TEMPLATE).length = 11 ∧
    CONTENT_LINE_INDEX ≤ (Generator.templateOutFile OUT_FILE_TEMPLATE).length ∧
    Generator.insertOutFileInTemplate (Generator.templateOutFile OUT_FILE_TEMPLATE)
        CONTENT_LINE_INDEX outFile =
      some ((Generator.templateOutFile OUT_FILE_TEMPLATE).take 8 ++ outFile ++
        (Generator.templateOutFile OUT_FILE_TEMPLATE).drop 8) ∧
    Generator.insertOutFileInTemplate (Generator.templateOutFile OUT_FILE_TEMPLATE)
        CONTENT_LINE_INDEX outFile =
      some (["/*!".toList, " *  \\file creolization.h".toList, " *  \\brief TODO".toList,
          " */".toList, [], "#ifndef _CREOLIZATION_H_".toList,
          "#define _CREOLIZATION_H_".toList, []] ++ outFile ++
        [[], "#endif /* _CREOLIZATION_H_ */".toList, []]) := by
  have htemplate : Generator.templateOutFile OUT_FILE_TEMPLATE =
      ["/*!".toList, " *  \\file creolization.h".toList, " *  \\brief TODO".toList,
        " */".toList, [], "#ifndef _CREOLIZATION_H_".toList,
        "#define _CREOLIZATION_H_".toList, [], [], "#endif /* _CREOLIZATION_H_ */".toList,
        []] := by
    decide
  have hinsert : Generator.insertOutFileInTemplate (Generator.templateOutFile OUT_FILE_TEMPLATE)
      CONTENT_LINE_INDEX outFile =
      some ((Generator.templateOutFile OUT_FILE_TEMPLATE).take 8 ++ outFile ++
        (Generator.templateOutFile OUT_FILE_TEMPLATE).drop 8) := by
    unfold Generator.insertOutFileInTemplate File.insert File.operatorPlusAssign
      CONTENT_LINE_INDEX
    rw [htemplate]
    simp
  refine ⟨by rw [htemplate]; rfl, by rw [htemplate]; decide, hinsert, ?_⟩
  rw [hinsert, htemplate]
  rfl

/-! ## Theorems on the defects of the generator -/

/-- C26: `Generator::deleteIncludeMainFile` leaves every line of every out file as it is,
since it matches the lines against a default constructed `std::regex()` and not against the
pattern it has built. For the source directory `include` and the main file
`serializable_types.h`, the line that includes the main file is not emptied. -/
theorem deleteIncludeMainFile_keeps_lines :
    (∀ srcDirName mainFileName lines,
      Generator.deleteIncludeMainFile srcDirName mainFileName lines = lines) ∧
    "#include \"include/serializable_types.h\"".toList =
      "#include \"".toList ++ "include".toList ++ "/".toList ++
        "serializable_types.h".toList ++ "\"".toList ∧
    Generator.deleteIncludeMainFile "include".toList "serializable_types.h".toList
        ["#include \"include/serializable_types.h\"".toList] =
      ["#include \"include/serializable_types.h\"".toList] := by
  have hall : ∀ srcDirName mainFileName lines,
      Generator.deleteIncludeMainFile srcDirName mainFileName lines = lines := by
    intro srcDirName mainFileName lines
    unfold Generator.deleteIncludeMainFile matchDefaultRegex
    simp
  exact ⟨hall, by decide, hall _ _ _⟩

/-- C23: on two sources in a row, each with its file description, the first description is
removed and the second one, lines 4 to 6 of the input, is kept, although it begins at a line
with the start of a Doxygen comment, contains a line with the tag `\file` and ends at the
first following line with the end of a comment: after the erasure the index `i` is not moved
back, and the lines that slide under it are never looked at. -/
theorem deleteFileDescription_keeps_second :
    Utils.isBeginOfDoxygenComment "/*!".toList = true ∧
    Utils.isDoxygenFileDescription " * \\file b.h".toList = true ∧
    Utils.isEndOfComment " * \\file b.h".toList = false ∧
    Utils.isEndOfComment " */".toList = true ∧
    File.deleteFileDescription sampleTwoDescriptions =
      some ["int a;".toList, "/*!".toList, " * \\file b.h".toList, " */".toList,
        "int b;".toList] := by
  refine ⟨by decide, by decide, by decide, by decide, ?_⟩
  unfold File.deleteFileDescription sampleTwoDescriptions
  simp only [List.length_cons, List.length_nil]
  repeat (rw [File.deleteFileDescriptionLoop]; simp [Utils.isBeginOfDoxygenComment,
    Utils.isDoxygenFileDescription, Utils.isEndOfComment, matchAround, containsLiteral,
    stripLiteral, isDot])

/-- C27: a file that includes `include/a.h` and then `include/b.h`, of one line each, keeps
the line of its second include after `Generator::preprocessFile`, and that line still matches
the pattern of the project includes: the emptied line of the first include stays in the file
while `size` is counted as if it were removed, so the last line is never looked at. This is
the result for every bound of at least 3 turns. -/
theorem preprocessFile_keeps_include (n : Nat) :
    Generator.preprocessFile sampleRead "include".toList (n + 3) sampleIncludes [] =
      some (["int a;".toList, [], "#include \"include/b.h\"".toList],
        ["include/a.h".toList]) ∧
    matchProjectInclude "include".toList "#include \"include/b.h\"".toList =
      some "include/b.h".toList := by
  exact ⟨rfl, by decide⟩

/-! ## Lemmas on the set of includes -/

theorem isBlank_of_isGuardChar {c : Char} (h : isGuardChar c = true) : isBlank c = false := by
  cases hb : isBlank c with
  | false => rfl
  | true =>
    unfold isBlank at hb
    simp only [Bool.or_eq_true, beq_iff_eq] at hb
    rcases hb with hb | hb <;> (subst hb; exact absurd h (by decide))

theorem stripLiteral_append (literal rest : List Char) :
    stripLiteral literal (literal ++ rest) = some rest := by
  induction literal with
  | nil => cases rest <;> rfl
  | cons a t ih => simp [stripLiteral, ih]

theorem takeWhile_guard_append_blank (guard tail : List Char)
    (hchars : ∀ c ∈ guard, isGuardChar c = true) (htail : ∀ c ∈ tail.head?, isGuardChar c = false) :
    (guard ++ tail).takeWhile isGuardChar = guard ∧
    (guard ++ tail).dropWhile isGuardChar = tail := by
  induction guard with
  | nil =>
    cases tail with
    | nil => simp
    | cons b t =>
      have hb : isGuardChar b = false := htail b (by simp)
      simp [List.takeWhile, List.dropWhile, hb]
  | cons a t ih =>
    have ha : isGuardChar a = true := hchars a (List.mem_cons_self _ _)
    have := ih (fun c hc => hchars c (List.mem_cons_of_mem _ hc))
    simp [List.takeWhile, List.dropWhile, ha, this.1, this.2]

theorem matchIfndef_guard (guard : List Char) (hne : guard ≠ [])
    (hchars : ∀ c ∈ guard, isGuardChar c = true) :
    matchIfndef ("#ifndef ".toList ++ guard) = some guard := by
  cases guard with
  | nil => exact absurd rfl hne
  | cons g rest =>
    have hg : isBlank g = false := isBlank_of_isGuardChar (hchars g (List.mem_cons_self _ _))
    have hstrip : stripLiteral "#ifndef".toList ("#ifndef ".toList ++ g :: rest) =
        some (' ' :: g :: rest) := stripLiteral_append "#ifndef".toList (' ' :: g :: rest)
    have hspan := takeWhile_guard_append_blank (g :: rest) [] hchars (by simp)
    simp only [List.append_nil] at hspan
    unfold matchIfndef
    rw [hstrip]
    have hblank : isBlank ' ' = true := rfl
    simp [List.takeWhile, List.dropWhile, hblank, hg, hspan.1, hspan.2]

theorem matchDefine_guard (guard : List Char) (hne : guard ≠ [])
    (hchars : ∀ c ∈ guard, isGuardChar c = true) :
    matchDefine guard ("#define ".toList ++ guard) = true := by
  cases guard with
  | nil => exact absurd rfl hne
  | cons g rest =>
    have hg : isBlank g = false := isBlank_of_isGuardChar (hchars g (List.mem_cons_self _ _))
    have hstrip : stripLiteral "#define".toList ("#define ".toList ++ g :: rest) =
        some (' ' :: g :: rest) := stripLiteral_append "#define".toList (' ' :: g :: rest)
    unfold matchDefine
    rw [hstrip]
    have hblank : isBlank ' ' = true := rfl
    simp [List.takeWhile, List.dropWhile, hblank, hg]

theorem matchEndif_guard (guard : List Char) :
    matchEndif guard ("#endif /* ".toList ++ guard ++ " */".toList) = true := by
  have hstrip : stripLiteral "#endif".toList ("#endif /* ".toList ++ guard ++ " */".toList) =
      some (" /* ".toList ++ guard ++ " */".toList) := by
    have := stripLiteral_append "#endif".toList (" /* ".toList ++ guard ++ " */".toList)
    simpa using this
  have hopen : stripLiteral "/*".toList ("/* ".toList ++ guard ++ " */".toList) =
      some (' ' :: (guard ++ " */".toList)) := by
    have := stripLiteral_append "/*".toList (' ' :: (guard ++ " */".toList))
    simpa using this
  have hguard := stripLiteral_append guard " */".toList
  unfold matchEndif
  rw [hstrip]
  have hb1 : isBlank ' ' = true := rfl
  have hb2 : isBlank '/' = false := rfl
  have htake : (" /* ".toList ++ guard ++ " */".toList).takeWhile isBlank = [' '] := by
    simp [List.takeWhile, hb1, hb2]
  have hdrop : (" /* ".toList ++ guard ++ " */".toList).dropWhile isBlank =
      "/* ".toList ++ guard ++ " */".toList := by
    simp [List.dropWhile, hb1, hb2]
  simp only [htake, hdrop, hopen, hguard, List.isEmpty_cons, Bool.false_eq_true, if_false]
  simp [hb1]

theorem matchIfndef_endif (guard : List Char) :
    matchIfndef ("#endif /* ".toList ++ guard ++ " */".toList) = none := by
  unfold matchIfndef
  have : stripLiteral "#ifndef".toList ("#endif /* ".toList ++ guard ++ " */".toList) = none := by
    simp [stripLiteral]
  rw [this]

theorem deleteIncludeGuardsStep_body (guard line : List Char) (lines : List (List Char))
    (i : Nat) (hline : lines[i]? = some line) (h1 : matchIfndef line = none)
    (h2 : matchEndif guard line = false) :
    Generator.deleteIncludeGuardsStep (lines, [guard]) i = some (lines, [guard]) := by
  unfold Generator.deleteIncludeGuardsStep
  simp [hline, h1, h2]

theorem deleteIncludeGuards_body (guard : List Char) (body : List (List Char))
    (hne : guard ≠ []) (hchars : ∀ c ∈ guard, isGuardChar c = true)
    (hbody : ∀ line ∈ body, matchIfndef line = none ∧ matchEndif guard line = false)
    (last : List Char) (k : Nat) (hk : k ≤ body.length) :
    (List.range (k + 2)).foldlM Generator.deleteIncludeGuardsStep
        (("#ifndef ".toList ++ guard) :: ("#define ".toList ++ guard) :: (body ++ [last]), []) =
      some ([] :: [] :: (body ++ [last]), [guard]) := by
  induction k with
  | zero =>
    have hrange : List.range (0 + 2) = [0, 1] := rfl
    have hnil1 : matchIfndef [] = none := rfl
    have hnil2 : matchEndif guard [] = false := rfl
    have hstep0 : Generator.deleteIncludeGuardsStep
        (("#ifndef ".toList ++ guard) :: ("#define ".toList ++ guard) :: (body ++ [last]), []) 0 =
        some ([] :: [] :: (body ++ [last]), [guard]) := by
      have h1 := matchIfndef_guard guard hne hchars
      have h2 := matchDefine_guard guard hne hchars
      generalize "#ifndef ".toList ++ guard = first at h1 ⊢
      generalize "#define ".toList ++ guard = second at h2 ⊢
      unfold Generator.deleteIncludeGuardsStep
      simp [h1, h2, hnil2]
    have hstep1 : Generator.deleteIncludeGuardsStep
        ([] :: [] :: (body ++ [last]), [guard]) 1 = some ([] :: [] :: (body ++ [last]), [guard]) :=
      deleteIncludeGuardsStep_body guard [] _ 1 (by simp) hnil1 hnil2
    rw [hrange, List.foldlM_cons, hstep0]
    simp only [Option.some_bind, Option.bind_eq_bind, List.foldlM_cons, hstep1]
    rfl
  | succ k ih =>
    have hlt : k < body.length := hk
    have hline : ([] :: [] :: (body ++ [last]))[k + 2]? = some body[k] := by
      simp only [List.getElem?_cons_succ]
      rw [List.getElem?_append_left hlt, List.getElem?_eq_getElem hlt]
    have hprops := hbody body[k] (List.getElem_mem _)
    rw [show k + 1 + 2 = (k + 2) + 1 from rfl, List.range_succ, List.foldlM_append,
      ih (Nat.le_of_lt hlt)]
    simp only [Option.some_bind, Option.bind_eq_bind, List.foldlM_cons, List.foldlM_nil,
      deleteIncludeGuardsStep_body guard body[k] _ (k + 2) hline hprops.1 hprops.2]
    rfl

/-! ## Theorem on the include guards -/

/-- C25: for a guard identifier `G`, not empty and made of `A-Z`, `0-9` and `_`, and a file
whose lines are the `ifndef` of `G`, the `define` of `G`, a body and the `endif` of `G` with
its comment, where no line of the body matches the pattern of an `ifndef` or the pattern of
the `endif` of `G`, `Generator::deleteIncludeGuards` returns, empties exactly those three
guard lines, leaves every line of the body as it is, and keeps the number of lines. -/
theorem deleteIncludeGuards_single_guard (guard : List Char) (body : List (List Char))
    (hne : guard ≠ []) (hchars : ∀ c ∈ guard, isGuardChar c = true)
    (hbody : ∀ line ∈ body, matchIfndef line = none ∧ matchEndif guard line = false) :
    Generator.deleteIncludeGuards
        (("#ifndef ".toList ++ guard) :: ("#define ".toList ++ guard) ::
          (body ++ ["#endif /* ".toList ++ guard ++ " */".toList])) =
      some ([] :: [] :: (body ++ [[]])) ∧
    ([] :: [] :: (body ++ [[]]) : List (List Char)).length =
      (("#ifndef ".toList ++ guard) :: ("#define ".toList ++ guard) ::
        (body ++ ["#endif /* ".toList ++ guard ++ " */".toList])).length := by
  refine ⟨?_, by simp⟩
  have hloop := deleteIncludeGuards_body guard body hne hchars hbody
    ("#endif /* ".toList ++ guard ++ " */".toList) body.length le_rfl
  have hlen : (("#ifndef ".toList ++ guard) :: ("#define ".toList ++ guard) ::
      (body ++ ["#endif /* ".toList ++ guard ++ " */".toList])).length =
      (body.length + 2) + 1 := by simp
  have hline : ([] :: [] :: (body ++ ["#endif /* ".toList ++ guard ++ " */".toList]))[
      body.length + 2]? = some ("#endif /* ".toList ++ guard ++ " */".toList) := by
    simp only [List.getElem?_cons_succ]
    rw [List.getElem?_append_right (le_refl _)]
    simp
  have hset : ([] :: [] :: (body ++ ["#endif /* ".toList ++ guard ++ " */".toList])).set
      (body.length + 2) [] = [] :: [] :: (body ++ [[]]) := by
    simp
  have hstep : Generator.deleteIncludeGuardsStep
      ([] :: [] :: (body ++ ["#endif /* ".toList ++ guard ++ " */".toList]), [guard])
      (body.length + 2) = some ([] :: [] :: (body ++ [[]]), []) := by
    unfold Generator.deleteIncludeGuardsStep
    simp only [hline, matchIfndef_endif guard, matchEndif_guard guard, if_true, hset]
  unfold Generator.deleteIncludeGuards
  rw [hlen, List.range_succ, List.foldlM_append, hloop]
  simp only [Option.some_bind, Option.bind_eq_bind, List.foldlM_cons, List.foldlM_nil, hstep]
  rfl

/-- Witness of C25 at the guard `_FILE_H_` and a body of two lines. -/
theorem deleteIncludeGuards_single_guard_witness :
    Generator.deleteIncludeGuards
        ["#ifndef _FILE_H_".toList, "#define _FILE_H_".toList, "#include <vector>".toList,
          "class file_t;".toList, "#endif /* _FILE_H_ */".toList] =
      some [[], [], "#include <vector>".toList, "class file_t;".toList, []] :=
  (deleteIncludeGuards_single_guard "_FILE_H_".toList
    ["#include <vector>".toList, "class file_t;".toList] (by decide) (by decide)
    (by decide)).1

/-! ## Theorems on the bounds of the line accesses -/

theorem cleared_set (orig cur : List (List Char)) (k : Nat)
    (hlen : cur.length = orig.length)
    (hinv : ∀ (j : Nat) (line : List Char), cur[j]? = some line →
      line = [] ∨ orig[j]? = some line) :
    (cur.set k []).length = orig.length ∧
    ∀ (j : Nat) (line : List Char), (cur.set k [])[j]? = some line →
      line = [] ∨ orig[j]? = some line := by
  refine ⟨by rw [List.length_set]; exact hlen, ?_⟩
  intro j line hj
  by_cases hk : k = j
  · subst hk
    by_cases hlt : k < cur.length
    · rw [List.getElem?_set_self hlt] at hj
      left
      exact (Option.some.inj hj).symm
    · rw [List.getElem?_eq_none (by rw [List.length_set]; omega)] at hj
      cases hj
  · rw [List.getElem?_set_ne hk] at hj
    exact hinv j line hj

theorem deleteIncludeGuardsStep_in_bounds (orig : List (List Char))
    (hlast : ∀ (i : Nat) (line : List Char), orig[i]? = some line →
      matchIfndef line ≠ none → i + 1 < orig.length)
    (state : List (List Char) × List (List Char)) (i : Nat) (hi : i < orig.length)
    (hlen : state.1.length = orig.length)
    (hinv : ∀ (j : Nat) (line : List Char), state.1[j]? = some line →
      line = [] ∨ orig[j]? = some line) :
    ∃ next, Generator.deleteIncludeGuardsStep state i = some next ∧
      next.1.length = orig.length ∧
      ∀ (j : Nat) (line : List Char), next.1[j]? = some line →
        line = [] ∨ orig[j]? = some line := by
  obtain ⟨cur, stack⟩ := state
  simp only at hlen hinv
  have hsecond : ∀ (lines stack2 : List (List Char)), lines.length = orig.length →
      (∀ (j : Nat) (line : List Char), lines[j]? = some line →
        line = [] ∨ orig[j]? = some line) →
      ∃ next, ((match stack2 with
        | [] => some (lines, stack2)
        | top :: below =>
          match lines[i]? with
          | none => none
          | some current =>
            if matchEndif top current then some (lines.set i [], below)
            else some (lines, stack2)) :
          Option (List (List Char) × List (List Char))) = some next ∧
        next.1.length = orig.length ∧
        ∀ (j : Nat) (line : List Char), next.1[j]? = some line →
          line = [] ∨ orig[j]? = some line := by
    intro lines stack2 hl hv
    cases stack2 with
    | nil => exact ⟨_, rfl, hl, hv⟩
    | cons top below =>
      have hcur : lines[i]? = some (lines.get ⟨i, by omega⟩) := by
        rw [List.getElem?_eq_getElem (by omega)]
        rfl
      simp only [hcur]
      split
      · exact ⟨_, rfl, cleared_set orig lines i hl hv⟩
      · exact ⟨_, rfl, hl, hv⟩
  have hline : cur[i]? = some (cur.get ⟨i, by omega⟩) := by
    rw [List.getElem?_eq_getElem (by omega)]
    rfl
  unfold Generator.deleteIncludeGuardsStep
  simp only [hline]
  cases hmatch : matchIfndef (cur.get ⟨i, by omega⟩) with
  | none => exact hsecond cur stack hlen hinv
  | some guard =>
    have horig : orig[i]? = some (cur.get ⟨i, by omega⟩) := by
      rcases hinv i _ hline with hnil | h
      · have hempty : matchIfndef [] = none := by decide
        rw [hnil, hempty] at hmatch
        cases hmatch
      · exact h
    have hnext : i + 1 < orig.length := hlast i _ horig (by rw [hmatch]; simp)
    have hread : cur[i + 1]? = some (cur.get ⟨i + 1, by omega⟩) := by
      rw [List.getElem?_eq_getElem (by omega)]
      rfl
    simp only [hread]
    by_cases hdefine : matchDefine guard (cur.get ⟨i + 1, by omega⟩) = true
    · have h1 := cleared_set orig cur i hlen hinv
      have h2 := cleared_set orig (cur.set i []) (i + 1) h1.1 h1.2
      simp only [hdefine, if_true]
      exact hsecond _ (guard :: stack) h2.1 h2.2
    · simp only [hdefine, if_false]
      exact hsecond cur stack hlen hinv

theorem deleteIncludeGuards_loop_in_bounds (lines : List (List Char))
    (hlast : ∀ (i : Nat) (line : List Char), lines[i]? = some line →
      matchIfndef line ≠ none → i + 1 < lines.length)
    (indices : List Nat) :
    ∀ (state : List (List Char) × List (List Char)),
      (∀ i ∈ indices, i < lines.length) → state.1.length = lines.length →
      (∀ (j : Nat) (line : List Char), state.1[j]? = some line →
        line = [] ∨ lines[j]? = some line) →
      ∃ final, indices.foldlM Generator.deleteIncludeGuardsStep state = some final ∧
        final.1.length = lines.length ∧
        ∀ (j : Nat) (line : List Char), final.1[j]? = some line →
          line = [] ∨ lines[j]? = some line := by
  induction indices with
  | nil =>
    intro state _ hlen hinv
    exact ⟨state, rfl, hlen, hinv⟩
  | cons i rest ih =>
    intro state hmem hlen hinv
    obtain ⟨next, hstep, hlen2, hinv2⟩ :=
      deleteIncludeGuardsStep_in_bounds lines hlast state i
        (hmem i (List.mem_cons_self _ _)) hlen hinv
    obtain ⟨final, hfinal, hlen3, hinv3⟩ :=
      ih next (fun k hk => hmem k (List.mem_cons_of_mem _ hk)) hlen2 hinv2
    refine ⟨final, ?_, hlen3, hinv3⟩
    rw [List.foldlM_cons, hstep]
    exact hfinal

theorem ifndef_not_last (lines : List (List Char))
    (hlast : ∀ line : List Char, lines.getLast? = some line → matchIfndef line = none)
    (i : Nat) (line : List Char) (hline : lines[i]? = some line)
    (hmatch : matchIfndef line ≠ none) : i + 1 < lines.length := by
  have hi : i < lines.length := by
    by_contra hge
    rw [List.getElem?_eq_none (by omega)] at hline
    cases hline
  by_contra hge
  have hidx : lines.length - 1 = i := by omega
  have hgetLast : lines.getLast? = some line := by
    rw [List.getLast?_eq_getElem?, hidx]
    exact hline
  exact hmatch (hlast line hgetLast)

theorem deleteIncludeGuards_in_bounds (lines : List (List Char))
    (hlast : ∀ (i : Nat) (line : List Char), lines[i]? = some line →
      matchIfndef line ≠ none → i + 1 < lines.length) :
    ∃ result, Generator.deleteIncludeGuards lines = some result ∧
      result.length = lines.length := by
  obtain ⟨final, hfinal, hlen, _⟩ :=
    deleteIncludeGuards_loop_in_bounds lines hlast (List.range lines.length) (lines, [])
      (fun i hi => List.mem_range.1 hi) rfl (fun j line h => Or.inr h)
  refine ⟨final.1, ?_, hlen⟩
  unfold Generator.deleteIncludeGuards
  rw [hfinal]
  rfl

/-- Every file that ends with an empty line, as the out file does after
`Generator::readSrcFiles`, is handled by `Generator::deleteIncludeGuards` with all its reads
inside the file. -/
theorem deleteIncludeGuards_ends_with_empty (pre : List (List Char)) :
    ∃ result, Generator.deleteIncludeGuards (pre ++ [[]]) = some result ∧
      result.length = pre.length + 1 := by
  obtain ⟨result, hresult, hlen⟩ :=
    deleteIncludeGuards_in_bounds (pre ++ [[]])
      (ifndef_not_last (pre ++ [[]]) (fun line h => by
        rw [List.getLast?_concat] at h
        cases h
        decide))
  exact ⟨result, hresult, by simpa using hlen⟩

/-- C35, as stated for every list of lines, fails: the line `i + 1` that
`Generator::deleteIncludeGuards` reads is not always a line of the file. In the file of the two lines `int x;` and `#ifndef FOO` the turn `i = 0` changes
nothing, at the turn `i = 1` the line matches the first pattern with the guard `FOO`, and the
index `i + 1 = 2` is the number of lines: the read is outside the file. The same holds for
every file of one line which matches the first pattern. -/
theorem deleteIncludeGuards_reads_past_end :
    sampleEndsWithIfndef.length = 2 ∧
    sampleEndsWithIfndef[1]? = some "#ifndef FOO".toList ∧
    matchIfndef "#ifndef FOO".toList = some "FOO".toList ∧
    sampleEndsWithIfndef[1 + 1]? = none ∧
    Generator.deleteIncludeGuardsStep (sampleEndsWithIfndef, []) 0 =
      some (sampleEndsWithIfndef, []) ∧
    Generator.deleteIncludeGuardsStep (sampleEndsWithIfndef, []) 1 = none ∧
    Generator.deleteIncludeGuards sampleEndsWithIfndef = none ∧
    (∀ line guard : List Char, matchIfndef line = some guard →
      Generator.deleteIncludeGuards [line] = none) := by
  refine ⟨rfl, rfl, by decide, rfl, by decide, by decide, by decide, ?_⟩
  intro line guard hmatch
  simp [Generator.deleteIncludeGuards, List.range_succ, List.foldlM,
    Generator.deleteIncludeGuardsStep, hmatch]

/-- C35, amended: for every list of lines whose last line does not match the `#ifndef`
pattern, every line access of `Generator::deleteIncludeGuards` is inside the file. At every
turn `i` the loop has reached a state with the same number of lines, the turn reads its lines
and ends, and whenever the line `i` of that state matches the `#ifndef` pattern, `i + 1` is an
index of the file. The procedure returns the lines, as many as it was given. -/
theorem deleteIncludeGuards_accesses_in_bounds (lines : List (List Char))
    (hlast : ∀ line : List Char, lines.getLast? = some line → matchIfndef line = none) :
    (∀ i : Nat, i < lines.length →
      ∃ state next,
        (List.range i).foldlM Generator.deleteIncludeGuardsStep (lines, []) = some state ∧
        state.1.length = lines.length ∧
        Generator.deleteIncludeGuardsStep state i = some next ∧
        (∀ line : List Char, state.1[i]? = some line → matchIfndef line ≠ none →
          i + 1 < state.1.length)) ∧
    ∃ result, Generator.deleteIncludeGuards lines = some result ∧
      result.length = lines.length := by
  have hidx := ifndef_not_last lines hlast
  refine ⟨?_, deleteIncludeGuards_in_bounds lines hidx⟩
  intro i hi
  obtain ⟨state, hstate, hlen, hinv⟩ :=
    deleteIncludeGuards_loop_in_bounds lines hidx (List.range i) (lines, [])
      (fun k hk => lt_trans (List.mem_range.1 hk) hi) rfl (fun j line h => Or.inr h)
  obtain ⟨next, hstep, _, _⟩ :=
    deleteIncludeGuardsStep_in_bounds lines hidx state i hi hlen hinv
  refine ⟨state, next, hstate, hlen, hstep, ?_⟩
  intro line hline hmatch
  rw [hlen]
  rcases hinv i line hline with hnil | horig
  · subst hnil
    exact absurd (by decide : matchIfndef [] = none) hmatch
  · exact hidx i line horig hmatch

/-- Witness of the amended C35: in `sampleEndsWithEmpty` the line `#ifndef FOO` is followed by
the empty last line, and the procedure returns the three lines. -/
theorem deleteIncludeGuards_accesses_in_bounds_witness :
    sampleEndsWithEmpty.getLast? = some [] ∧ matchIfndef [] = none ∧
    ∃ result, Generator.deleteIncludeGuards sampleEndsWithEmpty = some result ∧
      result.length = sampleEndsWithEmpty.length :=
  ⟨rfl, by decide,
    (deleteIncludeGuards_accesses_in_bounds sampleEndsWithEmpty (fun line h => by
      have hempty : line = [] := (Option.some.inj h).symm
      subst hempty
      decide)).2⟩

end SingleHeaderGenerator
